import Mathlib

/-!
Verification development for the OeuvresTrack progress-tracking engine
(`src/api.py`).  The Python functions that the claims concern are embedded
as executable Lean definitions over an explicit state type:

* `valid_format_ucatalalog` — the range-notation validator (api.py:1180),
  including the trailing-newline acceptance of Python's `$`;
* `get_statusE` — the status engine (api.py:1226), `none` modelling the
  KeyError its penalty test raises on a bookSeries tome group, and
  `get_status` its total wrapper read by the synchronizer operations;
* `get_ulist_text` — the lexicon renderer (api.py:745), embedded in
  state-passing style because the Python function mutates the `ucatalog`
  dictionary it is given (the `OnEpisode` branch, api.py:873-920): the
  embedding returns the rendered text together with the possibly-updated
  progress record;
* `add_ulist`, `update_ucatalog`, `toggle_giveup`, `set_rank`,
  `get_tierlist`, `hard_reload` — the list-synchronizer operations,
  embedded as transformers of a `DB` value that models the MongoDB
  collections (`catalog`, `ucatalog`, `ulist`, `settings`) the code reads
  and writes.

Modelling conventions, noted where they matter:
* Python strings are Lean `String`s; `\d` in the validator's regex is
  modelled as the ASCII digits `0`-`9` (`Char.isDigit`), and `int()` on an
  all-digit string as `digitsToNat`.
* Paths on which the Python code raises an exception (KeyError, IndexError,
  TypeError on a missing record, missing catalog document, missing settings
  document) are modelled by `Option`-returning operations yielding `none`,
  or, inside total helper functions, by a default that is only reachable on
  such a path; each such spot carries a comment.
* MongoDB `find_one`/`update_one` touch the first matching document; the
  collections are lists and the embedding searches/updates the first match.
-/

/-- Decimal value of a digit string, as Python's `int()` computes it on an
all-digit string (leading zeros allowed). -/
def digitsToNat (l : List Char) : Nat :=
  l.foldl (fun a c => a * 10 + (c.toNat - 48)) 0

/-- Python `s.split("-")` on the character list: splitting an empty string
gives `[""]`, and each `'-'` opens a new group. -/
def splitDashL : List Char → List (List Char)
  | [] => [[]]
  | c :: rest =>
      match splitDashL rest with
      | [] => if c = '-' then [[], []] else [[c]]
      | g :: gs => if c = '-' then [] :: g :: gs else (c :: g) :: gs

/-- Python `s.split("-")`. -/
def pySplitDash (s : String) : List String := (splitDashL s.data).map String.mk

/-- Python `int(s.split("-")[-1])` — the upper bound of a range token
`"N"` or `"N-M"` (the last dash-separated component, read as a number). -/
def upperOf (s : String) : Nat :=
  digitsToNat ((pySplitDash s).getLastD "").data

/-- Replace every non-overlapping occurrence of the non-empty pattern
`pat` by `rep`, left to right; the fuel bounds the recursion and is ample
whenever it exceeds the input length. -/
def replaceFuel (pat rep : List Char) : Nat → List Char → List Char
  | 0, s => s
  | _ + 1, [] => []
  | fuel + 1, c :: rest =>
      if pat.isPrefixOf (c :: rest) then
        rep ++ replaceFuel pat rep fuel ((c :: rest).drop pat.length)
      else c :: replaceFuel pat rep fuel rest

/-- Python `s.replace(pat, rep)` for a non-empty pattern. -/
def pyReplace (s pat rep : String) : String :=
  String.mk (replaceFuel pat.data rep.data (s.data.length + 1) s.data)

/-- Python `tpl.format(a)` for the templates the lexicon uses, which only
ever contain the placeholder `{0}`. -/
def pyFormat1 (tpl a : String) : String := pyReplace tpl "\x7b0\x7d" a

/-- Python `tpl.format(a, b)` for templates containing `{0}` and `{1}`. -/
def pyFormat2 (tpl a b : String) : String :=
  pyReplace (pyReplace tpl "\x7b0\x7d" a) "\x7b1\x7d" b

/-- An original-catalog identifier: the Python code stores either an int
(TMDB id) or a string (Booknode id). -/
inductive OId where
  | num : Int → OId
  | str : String → OId
deriving DecidableEq, Repr

/-- Python's `if isinstance(id, str): if id.isdigit(): id = int(id)`
normalisation applied by every list-synchronizer operation. -/
def normalizeId : OId → OId
  | OId.str s => if s.data ≠ [] ∧ s.data.all Char.isDigit then OId.num (digitsToNat s.data) else OId.str s
  | x => x

/-- The core of the range-notation regex `^(\d+)(?:-(\d+))?$`
(api.py:1209) once `$` has been resolved to a concrete end position: the
remaining input is all digits, or digits `-` digits; any successful match
takes the maximal digit prefix as group 1 (the character after it must be
`-` or the end, so fewer digits cannot match), hence
`takeWhile`/`dropWhile` embed the match faithfully.  On a `N-M` match the
code returns true iff `M > N`. -/
def validFmtL (l : List Char) : Bool :=
  let d1 := l.takeWhile Char.isDigit
  let rest := l.dropWhile Char.isDigit
  if d1 = [] then false
  else
    match rest with
    | [] => true
    | '-' :: d2 =>
        if d2 ≠ [] ∧ d2.all Char.isDigit then
          decide (digitsToNat d1 < digitsToNat d2)
        else false
    | _ => false

/-- Python's `$` (without `re.MULTILINE`) matches at the end of the string
*or just before a newline that ends the string*, so the regex ignores one
trailing `'\n'`: strip it before the core match. -/
def stripNL (l : List Char) : List Char :=
  if l.getLast? = some '\n' then l.dropLast else l

/-- The range-notation validator `valid_format_ucatalalog` (api.py:1180):
`re.match` of `^(\d+)(?:-(\d+))?$`, whose `$` also accepts a single
trailing newline — `"5\n"` and `"1-4\n"` are valid to the program. -/
def valid_format_ucatalalog (s : String) : Bool := validFmtL (stripNL s.data)

/-- The claim's reading of the validator contract (spec §4.1): a
non-negative decimal integer `N`, or `N-M` with both parts non-negative
decimal integers and `M` strictly greater than `N`. -/
def claimC2_valid (l : List Char) : Prop :=
  (l ≠ [] ∧ l.all Char.isDigit = true) ∨
  (∃ a b, l = a ++ '-' :: b ∧ a ≠ [] ∧ b ≠ [] ∧
    a.all Char.isDigit = true ∧ b.all Char.isDigit = true ∧
    digitsToNat a < digitsToNat b)

/-- A content unit of a catalog item: a TV season (api.py:272-282) or the
single tome group of a book series (api.py:462).  Only the fields the
status engine and the renderer read are kept: `season_number`,
`contents` (episode/tome titles — only the length is ever used) and
`finished`.  A TV season carries the `finished` key; the tome group of a
book series does not (api.py:462 builds only `title` and `contents`), so
`finished` is an `Option Bool` and `none` models the absent key —
reading it raises KeyError in Python.  `season_number` is likewise absent
on a tome group, but every read of it sits behind a `type == "tv"` check,
so a plain `Int` (unread for books) stays faithful. -/
structure CSeason where
  season_number : Int
  contents : List String
  finished : Option Bool
deriving DecidableEq, Repr

/-- A catalog document, restricted to the fields the claims' functions
read (`title`, `type`, `contents`, `finished`, `original_id`).  The
top-level `finished` key is stored only for tv (api.py:589-593); its only
read (`releaseFrags`) is short-circuited behind `type == "tv"`, so a
plain `Bool` (unread for other types) stays faithful. -/
structure CatalogItem where
  original_id : OId
  type : String
  title : String
  contents : List CSeason
  finished : Bool
deriving DecidableEq, Repr

/-- One entry of a progress record's `watch` list for a tv/books item:
`{"season_number": ..., "watched": [...]}`.  `season_number` is the value
the update endpoint received in JSON (a string — the status engine compares
it with `str(season["season_number"])`, api.py:1270); it is `none` for the
entry `{"watched": ["0"]}` that the renderer's OnEpisode branch appends
without a season number (api.py:893-897). -/
structure SeasonWatch where
  season_number : Option String
  watched : List String
deriving DecidableEq, Repr

/-- The `watch` field of a progress record: a list of season entries for
tv/books, a boolean consumed flag for movie/book once updated (`add_ulist`
initialises it to the empty list for every type, api.py:1013), or — when a
movie/book is updated with a token list — that raw token list, of which
only Python truthiness (non-emptiness) is ever used. -/
inductive WatchData where
  | series : List SeasonWatch → WatchData
  | single : Bool → WatchData
  | tokens : List String → WatchData
deriving DecidableEq, Repr

/-- Python truthiness of the `watch` value, as used by `get_status` for
movie/book (`finished = ucatalog["watch"]`, api.py:1298). -/
def watchTruthy : WatchData → Bool
  | WatchData.single b => b
  | WatchData.series l => !l.isEmpty
  | WatchData.tokens l => !l.isEmpty

/-- The `watch` value as the list the tv/books code iterates.  A `single`
boolean here is a path on which Python raises (iterating a bool); the
embedding returns the empty list there. -/
def seasonsOf : WatchData → List SeasonWatch
  | WatchData.series l => l
  | _ => []

/-- A `ucatalog` progress record (api.py:1008-1017).  `rank` is `some ""`
on creation; `none` models a JSON null. -/
structure UCat where
  user_id : Int
  type : String
  id : OId
  watch : WatchData
  rank : Option String
  status : String
deriving DecidableEq, Repr

/-- One entry of a user's cached list (`ulist.list`, api.py:996-1004). -/
structure UEntry where
  id : OId
  type : String
  text : String
  checked : Bool
  status : String
deriving DecidableEq, Repr

/-- One lexicon template `{"text": ..., "position": ..., "disabled"?: ...}`.
The Python renderer tests `"disabled" not in i` — presence of the key,
whatever its value — so `disabled` here models presence of the key. -/
structure LexEntry where
  text : String
  position : Int
  disabled : Bool
deriving DecidableEq, Repr

/-- A lexicon: the ten event hooks (api.py:711-742). -/
structure Lexicon where
  onFinishStatus : List LexEntry
  onTitle : List LexEntry
  onUnfinishedSeason : List LexEntry
  onFinishSeason : List LexEntry
  onStartedSeason : List LexEntry
  onTome : List LexEntry
  onEpisode : List LexEntry
  onRank : List LexEntry
  onGiveUp : List LexEntry
  onUnFinishedRelease : List LexEntry
deriving DecidableEq, Repr

/-- The built-in default lexicon (api.py:711-742). -/
def default_lexicon : Lexicon :=
  { onFinishStatus := [⟨"~~", 0, false⟩, ⟨"~~", 6, false⟩]
    onTitle := [⟨"{0}", 1, false⟩]
    onUnfinishedSeason := [⟨"*s{0}*", 2, true⟩]
    onFinishSeason := [⟨"s{0}", 2, true⟩]
    onStartedSeason := [⟨"s{0}", 2, false⟩]
    onTome := [⟨"t{0}/t{1}", 2, false⟩]
    onEpisode := [⟨"e{0}", 3, false⟩]
    onRank := [⟨"**{0}r**", 5, false⟩]
    onGiveUp := [⟨"~~", 0, false⟩, ⟨"(abandonné)~~", 6, false⟩]
    onUnFinishedRelease := [⟨"*(pas finit de sortir)*", 4, false⟩] }

/-- A stored `settings` document: `lexicon` is `none` when the stored
lexicon is the empty dict `{}`, `ignoreOvers` is the `"ignore-overs"` key
when present. -/
structure SettingsDoc where
  lexicon : Option Lexicon
  ignoreOvers : Option Bool
deriving DecidableEq, Repr

/-- What `get_settings` (api.py:1629) hands to its callers: the lexicon is
already resolved to the default when unset, `ignore-overs` keeps its
present-or-absent status (absent only when a stored document lacks the
key; the synthesised default document carries `true`). -/
structure SettingsR where
  lexicon : Lexicon
  ignoreOvers : Option Bool
deriving DecidableEq, Repr

/-- A text fragment the renderer collects: `{"text": ..., "position": ...}`
(some fragments also carry a `season_number` key in Python; nothing ever
reads it, so it is not modelled). -/
structure Frag where
  text : String
  position : Int
deriving DecidableEq, Repr

/-- Split `l` at the first occurrence of `pat` (a non-empty pattern):
`some (before, after)` with `l = before ++ pat ++ after`, scanning left to
right, or `none` when `pat` does not occur before a newline (`.` in the
Python regexes does not match `\n`, so a lazy group never spans one). -/
def splitFirstSub (pat : List Char) : List Char → Option (List Char × List Char)
  | [] => none
  | c :: rest =>
      if pat.isPrefixOf (c :: rest) then some ([], (c :: rest).drop pat.length)
      else if c = '\n' then none
      else (splitFirstSub pat rest).map (fun p => (c :: p.1, p.2))

/-- First delimiter of `delims` that is a prefix of `l` (the regex
alternation tries them in order). -/
def firstDelim (delims : List (List Char)) (l : List Char) : Option (List Char) :=
  delims.find? (fun d => d.isPrefixOf l)

/-- One `re.sub(r"(D1|D2)(.*?)\1", r"<t>\2</t>", s)` pass: at each position
try each delimiter; a match needs the same delimiter to occur again (lazily,
i.e. at its first later occurrence) before the next newline; replaced text is
not rescanned.  Fuel bounds the recursion (each step consumes input). -/
def subPass (delims : List (List Char)) (openT closeT : List Char) : Nat → List Char → List Char
  | 0, s => s
  | _ + 1, [] => []
  | fuel + 1, c :: rest =>
      match firstDelim delims (c :: rest) with
      | some d =>
          match splitFirstSub d ((c :: rest).drop d.length) with
          | some (content, after) =>
              openT ++ content ++ closeT ++ subPass delims openT closeT fuel after
          | none => c :: subPass delims openT closeT fuel rest
      | none => c :: subPass delims openT closeT fuel rest

/-- The markdown-to-HTML transform (api.py:613): bold, italic,
strike-through, underline, in that order, each a non-greedy
paired-delimiter substitution. -/
def markdown_to_html (s : String) : String :=
  let l0 := s.data
  let l1 := subPass [['*', '*'], ['_', '_']] "<strong>".data "</strong>".data (l0.length + 1) l0
  let l2 := subPass [['*'], ['_']] "<em>".data "</em>".data (l1.length + 1) l1
  let l3 := subPass [['~', '~']] "<del>".data "</del>".data (l2.length + 1) l2
  let l4 := subPass [['+', '+']] "<u>".data "</u>".data (l3.length + 1) l3
  String.mk l4

/-- Lexicon entries whose `disabled` key is absent (`"disabled" not in i`). -/
def enabledL (l : List LexEntry) : List LexEntry := l.filter (fun i => !i.disabled)

/-- Title fragments (api.py:762-766). -/
def titleFrags (c : CatalogItem) (lex : Lexicon) : List Frag :=
  (enabledL lex.onTitle).map (fun i => ⟨pyFormat1 i.text c.title, i.position⟩)

/-- Started-season fragments (api.py:767-779): for tv with progress, one
fragment per enabled template per watch entry with a non-empty watched
list, formatted with the entry's own `season_number` value. -/
def startedSeasonFrags (c : CatalogItem) (uc : Option UCat) (lex : Lexicon) : List Frag :=
  if c.type = "tv" then
    (enabledL lex.onStartedSeason).flatMap (fun i =>
      match uc with
      | some u =>
          (seasonsOf u.watch).filterMap (fun j =>
            if j.watched ≠ [] then
              some ⟨pyFormat1 i.text (j.season_number.getD ""), i.position⟩
            else none)
      | none => [])
  else []

/-- Whether the token's dash-split equals `["1", str(count)]` for the
catalog content unit at (watch-list) index `idx`; false when `idx` is out
of range (an IndexError path in Python). -/
def fullPairAt (c : CatalogItem) (idx : Nat) (tok : String) : Bool :=
  match c.contents.get? idx with
  | some s => decide (pySplitDash tok = ["1", toString s.contents.length])
  | none => false

/-- Finished-season fragments (api.py:781-797): for tv with progress, a
watch entry at position `index` emits one fragment per enabled template
when its watched list is a single token whose dash-split equals
`["1", str(len(catalog["contents"][index]["contents"]))]` — note the
episode count is taken from the catalog unit at the entry's *list index*,
not from the season carrying the entry's season number.  An index beyond
the catalog's contents raises IndexError in Python; here it emits
nothing. -/
def finishSeasonFrags (c : CatalogItem) (uc : Option UCat) (lex : Lexicon) : List Frag :=
  if c.type = "tv" then
    (enabledL lex.onFinishSeason).flatMap (fun i =>
      match uc with
      | some u =>
          (seasonsOf u.watch).enum.filterMap (fun p =>
            if p.2.watched.length = 1 ∧ fullPairAt c p.1 (p.2.watched.headD "") then
              some ⟨pyFormat1 i.text (p.2.season_number.getD ""), i.position⟩
            else none)
      | none => [])
  else []

/-- Whether the token's dash-split differs from `["1", str(count)]` for the
catalog content unit at index `idx`; false when `idx` is out of range (an
IndexError path in Python). -/
def notFullPairAt (c : CatalogItem) (idx : Nat) (tok : String) : Bool :=
  match c.contents.get? idx with
  | some s => decide (pySplitDash tok ≠ ["1", toString s.contents.length])
  | none => false

/-- Unfinished-season fragments (api.py:799-824): for tv without progress,
one per catalog season; with progress, one per watch entry whose non-empty
watched list's first token does not dash-split to the full-count pair of
the catalog unit at the entry's list index (same index-based lookup as
`finishSeasonFrags`; an out-of-range index raises in Python, here it emits
nothing). -/
def unfinishedSeasonFrags (c : CatalogItem) (uc : Option UCat) (lex : Lexicon) : List Frag :=
  if c.type = "tv" then
    (enabledL lex.onUnfinishedSeason).flatMap (fun i =>
      match uc with
      | none =>
          c.contents.map (fun j => ⟨pyFormat1 i.text (toString j.season_number), i.position⟩)
      | some u =>
          (seasonsOf u.watch).enum.filterMap (fun p =>
            if p.2.watched ≠ [] ∧ notFullPairAt c p.1 (p.2.watched.headD "") then
              some ⟨pyFormat1 i.text (p.2.season_number.getD ""), i.position⟩
            else none))
  else []

/-- Still-releasing fragments (api.py:825-833, inside the tv branch). -/
def releaseFrags (c : CatalogItem) (lex : Lexicon) : List Frag :=
  if c.type = "tv" ∧ c.finished = false then
    (enabledL lex.onUnFinishedRelease).map (fun i => ⟨i.text, i.position⟩)
  else []

/-- Finished-status fragments (api.py:835-844). -/
def doneFrags (uc : Option UCat) (lex : Lexicon) : List Frag :=
  match uc with
  | some u =>
      if u.status = "done" then (enabledL lex.onFinishStatus).map (fun i => ⟨i.text, i.position⟩)
      else []
  | none => []

/-- Tome fragments (api.py:846-872): for books, `current/total` where
`current` is the upper bound of the first watch entry's last token (0 when
the watched list is empty) and `total` the tome-group length.  With
progress and an empty watch list Python raises IndexError on `watch[0]`;
here nothing is emitted.  Likewise for a catalog without contents. -/
def tomeFrags (c : CatalogItem) (uc : Option UCat) (lex : Lexicon) : List Frag :=
  if c.type = "books" then
    (enabledL lex.onTome).flatMap (fun i =>
      match uc with
      | some u =>
          match seasonsOf u.watch with
          | [] => []
          | w0 :: _ =>
              match c.contents.get? 0 with
              | some g =>
                  let tome : Nat := if w0.watched ≠ [] then upperOf (w0.watched.getLastD "") else 0
                  [⟨pyFormat2 i.text (toString tome) (toString g.contents.length), i.position⟩]
              | none => []
      | none =>
          match c.contents.get? 0 with
          | some g => [⟨pyFormat2 i.text "0" (toString g.contents.length), i.position⟩]
          | none => [])
  else []

/-- Index of the last watch entry with a non-empty watched list, 0 when
none has one (api.py:877-880). -/
def lastStartedIdx (ws : List SeasonWatch) : Nat :=
  ws.enum.foldl (fun acc p => if p.2.watched ≠ [] then p.1 else acc) 0

/-- The in-place repair of the OnEpisode loop (api.py:882-897): when the
watch list is non-empty and the last-started entry's watched list is
empty, that list becomes `["0"]`; when the watch list is empty, the entry
`{"watched": ["0"]}` is appended.  (The out-of-range arm is unreachable:
`lastStartedIdx` is a valid index of a non-empty list.) -/
def episodeRepair (ws : List SeasonWatch) : List SeasonWatch :=
  if ws ≠ [] then
    match ws.get? (lastStartedIdx ws) with
    | some e =>
        if e.watched = [] then ws.set (lastStartedIdx ws) { e with watched := ["0"] } else ws
    | none => ws
  else ws ++ [⟨none, ["0"]⟩]

/-- `int(watch[last].get("watched", ["0"])[-1].split("-")[-1])`
(api.py:899-907): the upper bound of the entry's last token. -/
def episodeVal (ws : List SeasonWatch) (last : Nat) : Nat :=
  match ws.get? last with
  | some e => upperOf (e.watched.getLastD "0")
  | none => 0

/-- One iteration of the OnEpisode loop body (api.py:875-920) for a single
enabled template: recomputes the last started index, performs the
in-place repair, and emits a fragment with the upper bound of the
last-started entry's last token unless that bound is 0. -/
def episodeStep (i : LexEntry) (ws : List SeasonWatch) : List Frag × List SeasonWatch :=
  let ws' := episodeRepair ws
  let v := episodeVal ws' (lastStartedIdx ws)
  if v = 0 then ([], ws') else ([⟨pyFormat1 i.text (toString v), i.position⟩], ws')

/-- The OnEpisode loop over all enabled templates, threading the mutated
watch list (api.py:873-920). -/
def episodeFold (entries : List LexEntry) (ws : List SeasonWatch) : List Frag × List SeasonWatch :=
  entries.foldl
    (fun acc i =>
      let st := episodeStep i acc.2
      (acc.1 ++ st.1, st.2))
    ([], ws)

/-- Episode fragments together with the possibly-mutated progress record:
the loop only runs for tv with progress present, and only an enabled
OnEpisode template makes its body (and hence the mutation) run at all. -/
def episodeFrags (c : CatalogItem) (uc : Option UCat) (lex : Lexicon) : List Frag × Option UCat :=
  if c.type = "tv" then
    match uc with
    | some u =>
        if enabledL lex.onEpisode = [] then ([], some u)
        else
          ((episodeFold (enabledL lex.onEpisode) (seasonsOf u.watch)).1,
           some { u with
             watch := WatchData.series
               (episodeFold (enabledL lex.onEpisode) (seasonsOf u.watch)).2 })
    | none => ([], none)
  else ([], uc)

/-- Rank fragments (api.py:922-932): emitted when `rank` is neither null
nor the empty string. -/
def rankFrags (uc : Option UCat) (lex : Lexicon) : List Frag :=
  match uc with
  | some u =>
      match u.rank with
      | some r =>
          (enabledL lex.onRank).filterMap (fun i =>
            if r ≠ "" then some ⟨pyFormat1 i.text r, i.position⟩ else none)
      | none => []
  | none => []

/-- Give-up fragments (api.py:934-943). -/
def giveupFrags (uc : Option UCat) (lex : Lexicon) : List Frag :=
  match uc with
  | some u =>
      if u.status = "giveup" then (enabledL lex.onGiveUp).map (fun i => ⟨i.text, i.position⟩)
      else []
  | none => []

/-- All fragments in emission order, plus the progress record as the
renderer leaves it (only the OnEpisode branch can change it; the rank and
give-up blocks run after the mutation but read only `rank`/`status`, which
the mutation never touches, so reading them from the original record is
equivalent). -/
def get_ulist_elements (c : CatalogItem) (uc : Option UCat) (lex : Lexicon) :
    List Frag × Option UCat :=
  let ep := episodeFrags c uc lex
  (titleFrags c lex ++ startedSeasonFrags c uc lex ++ finishSeasonFrags c uc lex ++
     unfinishedSeasonFrags c uc lex ++ releaseFrags c lex ++ doneFrags uc lex ++
     tomeFrags c uc lex ++ ep.1 ++ rankFrags uc lex ++ giveupFrags uc lex,
   ep.2)

/-- Insert a fragment before the first one of strictly larger-or-equal-rank
position, keeping earlier-emitted fragments of equal position first. -/
def insertFrag (x : Frag) : List Frag → List Frag
  | [] => [x]
  | y :: ys => if x.position ≤ y.position then x :: y :: ys else y :: insertFrag x ys

/-- Stable ascending sort by `position` (Python `list.sort` with a key is
stable, ties keep emission order): insertion sort from the right, each
element landing before later-emitted fragments of equal position. -/
def sortFrags (l : List Frag) : List Frag :=
  l.foldr insertFrag []

/-- Concatenate fragment texts with trailing single spaces and strip the
final one (`text += e["text"] + " "` then `removesuffix(" ")`). -/
def joinFrags (l : List Frag) : String :=
  let t := l.foldl (fun t e => t ++ e.text ++ " ") ""
  if t.data.getLast? = some ' ' then String.mk t.data.dropLast else t

/-- The lexicon renderer `get_ulist_text` (api.py:745-954), returning the
rendered text and the progress record as the call leaves it (the Python
function mutates its `ucatalog` argument on the OnEpisode path). -/
def get_ulist_text (c : CatalogItem) (uc : Option UCat) (lex : Lexicon) :
    String × Option UCat :=
  let st := get_ulist_elements c uc lex
  (markdown_to_html (joinFrags (sortFrags st.1)), st.2)

/-- The per-unit "unfinished" penalty condition (api.py:1281, 1293):
`(len(s["contents"]) > 0 and s["finished"] is True) or len(s["contents"]) > 1`.
Python evaluates the left conjunction first, so a unit with a non-empty
content list reads `s["finished"]` before the `len > 1` test — on a
bookSeries tome group, which has no `finished` key, that read raises
KeyError, modelled `none`. -/
def unitPenalty (s : CSeason) : Option Bool :=
  if s.contents.length > 0 then
    s.finished.map (fun f => f || decide (s.contents.length > 1))
  else some false

/-- The progress entry for a content unit: for tv, the first watch entry
whose `season_number` equals `str(s["season_number"])` (api.py:1266-1273);
for books, the first watch entry whatever the unit (api.py:1278).  `none`
models the `{}` default. -/
def findUElement (tv : Bool) (ws : List SeasonWatch) (s : CSeason) : Option SeasonWatch :=
  if tv then ws.find? (fun e => decide (e.season_number = some (toString s.season_number)))
  else ws.head?

/-- One iteration of the status loop (api.py:1264-1296) over the pair
(`finished`, `started`); `none` propagates the KeyError of a penalty test
on a unit without a `finished` key. -/
def statusStepE (tv : Bool) (ws : List SeasonWatch) (ignore_overs : Bool)
    (st : Bool × Bool) (s : CSeason) : Option (Bool × Bool) :=
  if tv ∧ s.season_number = 0 ∧ ignore_overs then some st
  else
    match findUElement tv ws s with
    | none => (unitPenalty s).map (fun p => (st.1 && !p, st.2))
    | some e =>
        if e.watched.length = 1 then
          some (if upperOf (e.watched.headD "") ≠ s.contents.length then false else st.1,
                st.2 || decide (e.watched.length > 0))
        else
          (unitPenalty s).map (fun p => (st.1 && !p, st.2 || decide (e.watched.length > 0)))

/-- The status engine `get_status` (api.py:1226-1309); `none` models the
KeyError its penalty test raises on a bookSeries tome group, which the
stored books catalog documents leave without a `finished` key (api.py:462,
589-593). -/
def get_statusE (catalog : CatalogItem) (ucatalog : UCat) (ignore_giveup : Bool)
    (settings : SettingsR) : Option String :=
  let ignore_overs := settings.ignoreOvers.getD true
  if ucatalog.status = "giveup" ∧ ¬ignore_giveup then some ucatalog.status
  else
    (if catalog.type = "tv" ∨ catalog.type = "books" then
      catalog.contents.foldlM
        (statusStepE (decide (catalog.type = "tv")) (seasonsOf ucatalog.watch) ignore_overs)
        (true, false)
     else some (watchTruthy ucatalog.watch, false)).map
      (fun fs => if fs.1 then "done" else if fs.2 then "onwatch" else "towatch")

/-- The status value the synchronizer operations read; the default arm is
only reached where `get_statusE` is `none`, i.e. where the Python call
raises before returning a status. -/
def get_status (catalog : CatalogItem) (ucatalog : UCat) (ignore_giveup : Bool)
    (settings : SettingsR) : String :=
  (get_statusE catalog ucatalog ignore_giveup settings).getD "towatch"

/-- The database state the list-synchronizer operations read and write:
the `catalog`, `ucatalog`, `ulist` and `settings` collections.  `ulist`
documents are `{"id": user_id, "list": [...]}`; `settings` documents are
keyed by `user_id`. -/
structure DB where
  catalog : List CatalogItem
  ucatalog : List UCat
  ulist : List (Int × List UEntry)
  settings : List (Int × SettingsDoc)
deriving DecidableEq, Repr

/-- First catalog document with the given original id and type
(`get_element_by_original_id`, api.py:74). -/
def findCatalog (ty : String) (id : OId) (db : DB) : Option CatalogItem :=
  db.catalog.find? (fun c => decide (c.original_id = id ∧ c.type = ty))

/-- First progress record for (user, type, id) (`get_ucatalog`, api.py:1146;
`none` models the `{"exist": False}` result). -/
def get_ucatalog (uid : Int) (ty : String) (id : OId) (db : DB) : Option UCat :=
  db.ucatalog.find? (fun u => decide (u.user_id = uid ∧ u.type = ty ∧ u.id = id))

/-- The user's cached list, when the ulist document exists. -/
def findUlist (uid : Int) (db : DB) : Option (List UEntry) :=
  (db.ulist.find? (fun p => decide (p.1 = uid))).map (fun p => p.2)

/-- `get_settings` (api.py:1629-1639): a missing document yields the
defaults `{lexicon: {}, ignore-overs: True}`; an empty stored lexicon is
replaced by the default lexicon. -/
def get_settings (uid : Int) (db : DB) : SettingsR :=
  match db.settings.find? (fun p => decide (p.1 = uid)) with
  | none => ⟨default_lexicon, some true⟩
  | some p => ⟨p.2.lexicon.getD default_lexicon, p.2.ignoreOvers⟩

/-- `get_lexicon` (api.py:1702-1706): reads the settings document's lexicon
(default when empty); a missing settings document raises in Python
(`None["lexicon"]`), modelled as `none`. -/
def get_lexicon (uid : Int) (db : DB) : Option Lexicon :=
  (db.settings.find? (fun p => decide (p.1 = uid))).map
    (fun p => p.2.lexicon.getD default_lexicon)

/-- `$push` with `upsert=True` on the user's ulist document: append to the
first matching document's list, or create the document. -/
def pushUlist (uid : Int) (e : UEntry) : List (Int × List UEntry) → List (Int × List UEntry)
  | [] => [(uid, [e])]
  | p :: rest => if p.1 = uid then (p.1, p.2 ++ [e]) :: rest else p :: pushUlist uid e rest

/-- `update_one` with `$set {"list": l}` on the user's ulist document
(no upsert: a missing document stays missing). -/
def setUlist (uid : Int) (l : List UEntry) : List (Int × List UEntry) → List (Int × List UEntry)
  | [] => []
  | p :: rest => if p.1 = uid then (uid, l) :: rest else p :: setUlist uid l rest

/-- Update the first matching progress record in place. -/
def updateFirstUCat (pred : UCat → Bool) (f : UCat → UCat) : List UCat → List UCat
  | [] => []
  | u :: rest => if pred u then f u :: rest else u :: updateFirstUCat pred f rest

/-- Update the first entry matching (id, type) of a single ulist document's
list (the Mongo positional `$` update, api.py:1330-1345). -/
def updateFirstEntry (id : OId) (ty : String) (f : UEntry → UEntry) : List UEntry → List UEntry
  | [] => []
  | e :: rest =>
      if e.id = id ∧ e.type = ty then f e :: rest else e :: updateFirstEntry id ty f rest

/-- `update_one({"id": uid, "list": {"$elemMatch": ...}}, {"$set": {"list.$...."}})`:
the first ulist document for the user is updated only when its list has a
matching element, and then only that element's first occurrence. -/
def updateUlistEntry (uid : Int) (id : OId) (ty : String) (f : UEntry → UEntry) :
    List (Int × List UEntry) → List (Int × List UEntry)
  | [] => []
  | p :: rest =>
      if p.1 = uid ∧ p.2.any (fun e => decide (e.id = id ∧ e.type = ty)) then
        (p.1, updateFirstEntry id ty f p.2) :: rest
      else p :: updateUlistEntry uid id ty f rest

/-- What `add_ulist` returns: Python `False` (already tracked), `None`
(no catalog document), or the new entry's data. -/
inductive AddRes where
  | alreadyTracked : AddRes
  | notFound : AddRes
  | ok : String → String → OId → AddRes
deriving DecidableEq, Repr

/-- `add_ulist` (api.py:957-1029): fails when a progress record already
exists; fails when no catalog document matches; otherwise renders the
preview text (progress absent), pushes one cached-list entry
`{checked: False, status: "towatch"}`, inserts a progress record with
empty watch list, empty rank and status `"towatch"`, and returns the new
entry's data.  `none` models the exception `get_lexicon` raises when the
user has no settings document. -/
def add_ulist (uid : Int) (ty : String) (id0 : OId) (db : DB) : Option (AddRes × DB) :=
  let id := normalizeId id0
  if (db.ucatalog.filter (fun u => decide (u.user_id = uid ∧ u.type = ty ∧ u.id = id))).length > 0 then
    some (AddRes.alreadyTracked, db)
  else
    match db.catalog.find? (fun c => decide (c.original_id = id ∧ c.type = ty)) with
    | none => some (AddRes.notFound, db)
    | some dcatalog =>
        (get_lexicon uid db).map (fun lex =>
          let text := (get_ulist_text dcatalog none lex).1
          let entry : UEntry := ⟨dcatalog.original_id, dcatalog.type, text, false, "towatch"⟩
          let db1 : DB := { db with ulist := pushUlist uid entry db.ulist }
          let db2 : DB := { db1 with
            ucatalog := db1.ucatalog ++ [⟨uid, ty, id, WatchData.series [], some "", "towatch"⟩] }
          (AddRes.ok text ty id, db2))

/-- `send_update_ucatalog` (api.py:1312-1347): recomputes the status, writes
watch+status to the progress record, renders the text with the updated
record, and sets text/status/checked on the cached entry.  Returns the new
status and text with the updated state. -/
def send_update_ucatalog (catalog : CatalogItem) (uc : UCat) (db : DB) :
    (String × String) × DB :=
  let settings := get_settings uc.user_id db
  let lexicon := settings.lexicon
  let newst := get_status catalog uc false settings
  let db1 : DB := { db with
    ucatalog := updateFirstUCat
      (fun u => decide (u.user_id = uc.user_id ∧ u.id = catalog.original_id ∧ u.type = catalog.type))
      (fun u => { u with watch := uc.watch, status := newst }) db.ucatalog }
  let text := (get_ulist_text catalog (some { uc with status := newst }) lexicon).1
  let checked := decide (newst = "done") || decide (newst = "giveup")
  let db2 : DB := { db1 with
    ulist := updateUlistEntry uc.user_id catalog.original_id catalog.type
      (fun e => { e with text := text, status := newst, checked := checked }) db1.ulist }
  ((newst, text), db2)

/-- The `changes` argument of `update_ucatalog`: a list of range tokens or
a boolean. -/
inductive Changes where
  | list : List String → Changes
  | bool : Bool → Changes
deriving DecidableEq, Repr

/-- What `update_ucatalog` returns: `{"status": "error"}` on a malformed
token, or the updated view. -/
inductive UpdRes where
  | error : UpdRes
  | ok : String → String → OId → String → Bool → UpdRes
deriving DecidableEq, Repr

/-- Apply the season update of `update_ucatalog` (api.py:1401-1412) to the
watch list: set the matching entry's `watched`, or append a fresh entry
for the season and set it. -/
def setSeasonWatched (sn : String) (l : List String) (ws : List SeasonWatch) : List SeasonWatch :=
  match ws.findIdx? (fun s => decide (s.season_number = some sn)) with
  | some i =>
      match ws.get? i with
      | some e => ws.set i { e with watched := l }
      | none => ws
  | none => ws ++ [⟨some sn, l⟩]

/-- `update_ucatalog` (api.py:1350-1438).  Every list token is validated
first; a malformed one returns the error result before anything is read or
written.  A missing record triggers the implicit `add_ulist`; if the record
still does not exist afterwards, or the catalog document is missing, or a
boolean is supplied for a tv/books item (Python later raises `len(bool)`
inside `get_status`), the call raises — modelled as `none`. -/
def update_ucatalog (uid : Int) (ty : String) (id0 : OId) (sn : String)
    (changes : Changes) (db : DB) : Option (UpdRes × DB) :=
  match changes with
  | Changes.list l =>
      if l.any (fun s => !valid_format_ucatalalog s) then some (UpdRes.error, db)
      else
        let id := normalizeId id0
        let step1 : Option (UCat × DB) :=
          match get_ucatalog uid ty id db with
          | some uc => some (uc, db)
          | none =>
              (add_ulist uid ty id0 db).bind (fun r =>
                (get_ucatalog uid ty id r.2).map (fun uc => (uc, r.2)))
        step1.bind (fun p =>
          let uc := p.1
          let db1 := p.2
          let ucNew : Option UCat :=
            if ty = "tv" ∨ ty = "books" then
              match uc.watch with
              | WatchData.series ws =>
                  some { uc with watch := WatchData.series (setSeasonWatched sn l ws) }
              | _ => none
            else some { uc with watch := WatchData.tokens l }
          ucNew.bind (fun ucN =>
            (findCatalog ty id db1).map (fun catalog =>
              let r := send_update_ucatalog catalog ucN db1
              let checked := decide (r.1.1 = "done") || decide (r.1.1 = "giveup")
              (UpdRes.ok r.1.2 ty id r.1.1 checked, r.2))))
  | Changes.bool b =>
      let id := normalizeId id0
      let step1 : Option (UCat × DB) :=
        match get_ucatalog uid ty id db with
        | some uc => some (uc, db)
        | none =>
            (add_ulist uid ty id0 db).bind (fun r =>
              (get_ucatalog uid ty id r.2).map (fun uc => (uc, r.2)))
      step1.bind (fun p =>
        let uc := p.1
        let db1 := p.2
        let ucNew : Option UCat :=
          if ty = "tv" ∨ ty = "books" then none
          else some { uc with watch := WatchData.single b }
        ucNew.bind (fun ucN =>
          (findCatalog ty id db1).map (fun catalog =>
            let r := send_update_ucatalog catalog ucN db1
            let checked := decide (r.1.1 = "done") || decide (r.1.1 = "giveup")
            (UpdRes.ok r.1.2 ty id r.1.1 checked, r.2))))

/-- `toggle_giveup` (api.py:1441-1503): flips between `"giveup"` and the
status recomputed with `ignore_giveup=True`; writes the record's status,
re-renders, and sets text/status/checked on the cached entry.  A missing
record or catalog document raises in Python — modelled as `none`. -/
def toggle_giveup (uid : Int) (ty : String) (id0 : OId) (db : DB) :
    Option ((String × String × Bool) × DB) :=
  let id := normalizeId id0
  (get_ucatalog uid ty id db).bind (fun uc =>
    (findCatalog ty id db).map (fun catalog =>
      let settings := get_settings uid db
      let newst :=
        if uc.status = "giveup" then get_status catalog uc true settings else "giveup"
      let lexicon := settings.lexicon
      let db1 : DB := { db with
        ucatalog := updateFirstUCat
          (fun u => decide (u.user_id = uid ∧ u.type = ty ∧ u.id = id))
          (fun u => { u with status := newst }) db.ucatalog }
      let text := (get_ulist_text catalog (some { uc with status := newst }) lexicon).1
      let checked := decide (newst = "done") || decide (newst = "giveup")
      let db2 : DB := { db1 with
        ulist := updateUlistEntry uid id ty
          (fun e => { e with text := text, status := newst, checked := checked }) db1.ulist }
      ((text, newst, checked), db2)))

/-- The progress-record write of `set_rank` (api.py:1537-1540): set `rank`
on the first matching record. -/
def rankWrite (uid : Int) (ty : String) (id : OId) (rank : String) (db : DB) : DB :=
  { db with
    ucatalog := updateFirstUCat
      (fun u => decide (u.user_id = uid ∧ u.type = ty ∧ u.id = id))
      (fun u => { u with rank := some rank }) db.ucatalog }

/-- `set_rank` (api.py:1506-1563): implicit add when untracked, writes the
rank verbatim to the progress record, re-renders with the new rank and
updates only the cached entry's text.  A missing catalog document or
settings document raises in Python — modelled as `none`. -/
def set_rank (uid : Int) (ty : String) (id0 : OId) (rank : String) (db : DB) :
    Option ((String × String × Bool) × DB) :=
  let id := normalizeId id0
  let step1 : Option (UCat × DB) :=
    match get_ucatalog uid ty id db with
    | some uc => some (uc, db)
    | none =>
        (add_ulist uid ty id0 db).bind (fun r =>
          (get_ucatalog uid ty id r.2).map (fun uc => (uc, r.2)))
  step1.bind (fun p =>
    let uc := p.1
    let db1 : DB := rankWrite uid ty id rank p.2
    (findCatalog ty id db1).bind (fun catalog =>
      (get_lexicon uid db1).map (fun lexicon =>
        let ucr := { uc with rank := some rank }
        let text := (get_ulist_text catalog (some ucr) lexicon).1
        let checked := decide (ucr.status = "done") || decide (ucr.status = "giveup")
        let db2 : DB := { db1 with
          ulist := updateUlistEntry uid id ty (fun e => { e with text := text }) db1.ulist }
        ((text, ucr.status, checked), db2))))

/-- One item of the tier list (api.py:1615-1624; the catalog join only
contributes the title, not modelled further here beyond presence). -/
structure TierItem where
  rank : Option String
  type : String
  status : String
  id : OId
  title : String
deriving DecidableEq, Repr

/-- The eight fixed tier buckets (api.py:1598-1607). -/
structure Buckets where
  S : List TierItem
  A : List TierItem
  B : List TierItem
  C : List TierItem
  D : List TierItem
  E : List TierItem
  F : List TierItem
  Unknown : List TierItem
deriving DecidableEq, Repr

def emptyBuckets : Buckets := ⟨[], [], [], [], [], [], [], []⟩

/-- The bucket key of a rank: empty or null map to `"Unknown"`
(api.py:1611-1613). -/
def rankKey : Option String → String
  | none => "Unknown"
  | some r => if r = "" then "Unknown" else r

/-- `tierlist[query].append(item)`: `none` when the key is not one of the
eight buckets — the KeyError Python raises there (api.py:1615). -/
def tierInsert (b : Buckets) (key : String) (it : TierItem) : Option Buckets :=
  if key = "S" then some { b with S := b.S ++ [it] }
  else if key = "A" then some { b with A := b.A ++ [it] }
  else if key = "B" then some { b with B := b.B ++ [it] }
  else if key = "C" then some { b with C := b.C ++ [it] }
  else if key = "D" then some { b with D := b.D ++ [it] }
  else if key = "E" then some { b with E := b.E ++ [it] }
  else if key = "F" then some { b with F := b.F ++ [it] }
  else if key = "Unknown" then some { b with Unknown := b.Unknown ++ [it] }
  else none

/-- The aggregation feeding `get_tierlist` (api.py:1567-1595): the user's
progress records, each joined with every catalog document of the same type
and original id (`$unwind` drops records with no match). -/
def tierResults (uid : Int) (db : DB) : List (UCat × CatalogItem) :=
  (db.ucatalog.filter (fun u => decide (u.user_id = uid))).flatMap (fun u =>
    (db.catalog.filter (fun c => decide (c.type = u.type ∧ c.original_id = u.id))).map
      (fun c => (u, c)))

def tierItemOf (p : UCat × CatalogItem) : TierItem :=
  ⟨p.1.rank, p.1.type, p.1.status, p.1.id, p.2.title⟩

/-- `get_tierlist` (api.py:1566-1626): groups the joined records into the
fixed buckets in order; `none` models the KeyError on a rank outside the
eight bucket names.  The function reads the state and returns no new
state: it performs no write. -/
def get_tierlist (uid : Int) (db : DB) : Option Buckets :=
  (tierResults uid db).foldl
    (fun acc p => acc.bind (fun b => tierInsert b (rankKey p.1.rank) (tierItemOf p)))
    (some emptyBuckets)

/-- A queued status write of `hard_reload` (api.py:1095-1101): the
`UpdateOne({"user_id": ..., "type": ..., "id": ...}, {"$set": {"status": ...}})`
operation. -/
structure StatusOp where
  user_id : Int
  type : String
  id : OId
  status : String
deriving DecidableEq, Repr

/-- The (id, type) pairs of the user's cached list, as the `$or` filter of
`hard_reload`'s aggregation collects them (api.py:1043-1051). -/
def resultPairs (l : List UEntry) : List (OId × String) :=
  l.map (fun i => (i.id, i.type))

/-- The aggregation of `hard_reload` (api.py:1043-1078): the user's progress
records restricted to the list's (id, type) pairs, each joined with every
matching catalog document. -/
def hrResults (uid : Int) (pairs : List (OId × String)) (db : DB) :
    List (UCat × CatalogItem) :=
  (db.ucatalog.filter (fun u => decide (u.user_id = uid) && decide ((u.id, u.type) ∈ pairs))).flatMap
    (fun u =>
      (db.catalog.filter (fun c => decide (c.type = u.type ∧ c.original_id = u.id))).map
        (fun c => (u, c)))

/-- The inner loop of `hard_reload` (api.py:1103-1106) for one aggregation
result: walk the cached list, and on every entry matching the result's
(id, type) set `checked` from the recomputed status and re-render the text
— threading the progress record through the renderer calls, since the
renderer can mutate it and the Python loop reuses the same dictionary. -/
def applyEntries (c : CatalogItem) (lex : Lexicon) (u : UCat) :
    List UEntry → List UEntry × UCat
  | [] => ([], u)
  | e :: rest =>
      if e.id = u.id ∧ e.type = u.type then
        let r := get_ulist_text c (some u) lex
        let u2 := r.2.getD u
        let e' : UEntry :=
          { e with checked := decide (u.status = "done") || decide (u.status = "giveup"),
                   text := r.1 }
        let tail := applyEntries c lex u2 rest
        (e' :: tail.1, tail.2)
      else
        let tail := applyEntries c lex u rest
        (e :: tail.1, tail.2)

/-- The fold of `hard_reload` over all aggregation results (api.py:1082-1106),
carrying the queued status writes and the in-place-edited list. -/
def hrFold (sr : SettingsR) (lex : Lexicon) (uid : Int)
    (results : List (UCat × CatalogItem)) (l : List UEntry) :
    List StatusOp × List UEntry :=
  results.foldl
    (fun acc p =>
      let u := p.1
      let c := p.2
      let newst := get_status c u false sr
      let ops := if u.status ≠ newst then acc.1 ++ [⟨uid, u.type, u.id, newst⟩] else acc.1
      let ae := applyEntries c lex { u with status := newst } acc.2
      (ops, ae.1))
    ([], l)

/-- The settings, lexicon, aggregation and fold of one `hard_reload` pass
(api.py:1034-1106) over a cached list `l`. -/
def hrOut (uid : Int) (db : DB) (l : List UEntry) : List StatusOp × List UEntry :=
  hrFold (get_settings uid db) (get_settings uid db).lexicon uid
    (hrResults uid (resultPairs l) db) l

/-- `hard_reload` (api.py:1032-1116), exposing the queued status writes.
`none` models the exception on a missing ulist document.  An empty list
short-circuits before any write.  The queued status writes are issued with
`db.catalog.bulk_write` (api.py:1109) — against the *catalog* collection,
with a filter on `user_id`/`type`/`id`; catalog documents carry no
`user_id` field, so no document matches and the catalog is unchanged:
applying the batch is the identity on the state.  The cached list is then
rewritten wholesale. -/
def hard_reload_core (uid : Int) (db : DB) : Option (List StatusOp × DB × List UEntry) :=
  match db.ulist.find? (fun p => decide (p.1 = uid)) with
  | none => none
  | some doc =>
      if doc.2 = [] then some ([], db, doc.2)
      else
        some ((hrOut uid db doc.2).1,
              { db with ulist := setUlist uid (hrOut uid db doc.2).2 db.ulist },
              (hrOut uid db doc.2).2)

/-- `hard_reload`'s caller-visible behaviour: the final state and the
returned list. -/
def hard_reload (uid : Int) (db : DB) : Option (DB × List UEntry) :=
  (hard_reload_core uid db).map (fun x => (x.2.1, x.2.2))

/-- Claim C1's per-unit completion rule, stated from the spec's words
(§4.2): with the entry absent or its watched list empty, the unit counts
complete unless it has more than one content element or (at least one
element and is fully released); with a non-empty watched range, the unit
is complete exactly when the range's upper bound equals the unit's content
count. -/
def claimComplete (s : CSeason) : Option SeasonWatch → Bool
  | none => !(decide (s.contents.length > 1) ||
      (decide (s.contents.length ≥ 1) && decide (s.finished = some true)))
  | some e =>
      if e.watched = [] then
        !(decide (s.contents.length > 1) ||
          (decide (s.contents.length ≥ 1) && decide (s.finished = some true)))
      else decide (upperOf (e.watched.headD "") = s.contents.length)

/-- Claim C1's per-unit started rule: the entry is present with a
non-empty watched range. -/
def claimStarted : Option SeasonWatch → Bool
  | none => false
  | some e => !e.watched.isEmpty

/-- The content units claim C1 iterates: the catalog's contents in order,
skipping season 0 for tv when ignore-specials is on. -/
def claimUnits (c : CatalogItem) (ignore_overs : Bool) : List CSeason :=
  c.contents.filter (fun s => !(decide (c.type = "tv") && decide (s.season_number = 0) && ignore_overs))

/-- Claim C1's status derivation, stated from the spec's words: done when
every unit is complete, else in-progress when any unit was started, else
to-consume. -/
def claimC1_status (c : CatalogItem) (ws : List SeasonWatch) (ignore_overs : Bool) : String :=
  let units := claimUnits c ignore_overs
  if units.all (fun s => claimComplete s (findUElement (decide (c.type = "tv")) ws s)) then "done"
  else if units.any (fun s => claimStarted (findUElement (decide (c.type = "tv")) ws s)) then "onwatch"
  else "towatch"

/-- Claim C9's bucket contents, stated from the spec's words: the joined
items grouped by rank key, in aggregation order. -/
def claimBucket (uid : Int) (db : DB) (key : String) : List TierItem :=
  (tierResults uid db).filterMap
    (fun p => if rankKey p.1.rank = key then some (tierItemOf p) else none)

/-- The (id, type) key of a cached-list entry, the only data of an entry
that `hard_reload`'s matching reads. -/
def epair (e : UEntry) : OId × String := (e.id, e.type)

/-- Proof-layer decomposition of `applyEntries`: the text/checked value the
inner loop computes for each key position — `some (text, checked)` on a
matching key, `none` otherwise — threading the renderer's progress-record
state exactly as `applyEntries` does. -/
def resultVals (c : CatalogItem) (lex : Lexicon) (u : UCat) :
    List (OId × String) → List (Option (String × Bool))
  | [] => []
  | k :: ks =>
      if k.1 = u.id ∧ k.2 = u.type then
        some ((get_ulist_text c (some u) lex).1,
            decide (u.status = "done") || decide (u.status = "giveup")) ::
          resultVals c lex (((get_ulist_text c (some u) lex).2).getD u) ks
      else none :: resultVals c lex u ks

/-- Apply a list of optional (text, checked) values positionally: `some`
overrides those two fields, `none` keeps the entry. -/
def mergeVals : List UEntry → List (Option (String × Bool)) → List UEntry
  | [], _ => []
  | l, [] => l
  | e :: l, v :: vs =>
      (match v with
       | some tc => { e with text := tc.1, checked := tc.2 }
       | none => e) :: mergeVals l vs

/-- Positional combination of two value lists, the second overriding the
first. -/
def combineVals : List (Option (String × Bool)) → List (Option (String × Bool)) →
    List (Option (String × Bool))
  | [], _ => []
  | _ :: _, [] => []
  | a :: v1, b :: v2 =>
      (match b with
       | some x => some x
       | none => a) :: combineVals v1 v2

/-- The value list of a whole `hard_reload` pass over the aggregation
results, later results overriding earlier ones. -/
def allVals (sr : SettingsR) (lex : Lexicon) :
    List (UCat × CatalogItem) → List (OId × String) → List (Option (String × Bool))
  | [], ks => List.replicate ks.length none
  | r :: rs, ks =>
      combineVals
        (resultVals r.2 lex { r.1 with status := get_status r.2 r.1 false sr } ks)
        (allVals sr lex rs ks)

/-- The list component of `hard_reload`'s fold, without the queued
operations. -/
def hrApplyL (sr : SettingsR) (lex : Lexicon) :
    List (UCat × CatalogItem) → List UEntry → List UEntry
  | [], l => l
  | r :: rs, l =>
      hrApplyL sr lex rs
        (applyEntries r.2 lex { r.1 with status := get_status r.2 r.1 false sr } l).1

/-- Claim C10's invariant on a cached-list entry: `checked` is set exactly
when the entry's stored status is `done` or `giveup`. -/
def entryInv (e : UEntry) : Prop :=
  e.checked = (decide (e.status = "done") || decide (e.status = "giveup"))

/-- The user's cached list in a state, `[]` when the document is absent. -/
def userListOf (uid : Int) (db : DB) : List UEntry := (findUlist uid db).getD []

/-- A tv catalog document with an over (season 0), a finished season and an
unfinished single-episode season, used to instantiate the status-engine
claims. -/
def cW1 : CatalogItem :=
  ⟨OId.num 1, "tv", "Show",
   [⟨0, ["x"], some true⟩, ⟨1, ["a", "b"], some true⟩, ⟨2, ["c"], some false⟩], false⟩

/-- A progress record for `cW1` whose only entry fully covers season 1. -/
def ucW1 : UCat :=
  ⟨1, "tv", OId.num 1, WatchData.series [⟨some "1", ["1-2"]⟩], some "", "onwatch"⟩

/-- Default settings with `ignore-overs` stored explicitly. -/
def srW1 : SettingsR := ⟨default_lexicon, some true⟩

/-- A movie catalog document. -/
def cW3 : CatalogItem := ⟨OId.num 2, "movie", "Film", [], true⟩

/-- A consumed progress record for `cW3`. -/
def ucW3 : UCat := ⟨1, "movie", OId.num 2, WatchData.single true, some "", "done"⟩

/-- A tv catalog document with one two-episode season. -/
def cC3 : CatalogItem := ⟨OId.num 3, "tv", "Mut", [⟨1, ["a", "b"], some true⟩], true⟩

/-- A progress record for `cC3` whose single watch entry has an empty
watched list — the configuration on which the renderer's OnEpisode branch
writes into the record. -/
def ucC3 : UCat :=
  ⟨1, "tv", OId.num 3, WatchData.series [⟨some "1", []⟩], some "", "onwatch"⟩

/-- A state tracking the movie `cW3` for user 1. -/
def dbW5 : DB :=
  ⟨[cW3], [ucW3], [(1, [⟨OId.num 2, "movie", "t", true, "done"⟩])], []⟩

/-- A tv catalog document with a two-episode season 1 and a three-episode
season 2. -/
def cC8 : CatalogItem :=
  ⟨OId.num 4, "tv", "Mis", [⟨1, ["a", "b"], some true⟩, ⟨2, ["c", "d", "e"], some true⟩], true⟩

/-- A progress record for `cC8` whose watch list holds only season 2 —
fully watched (`"1-3"` covers its three episodes), but sitting at list
position 0. -/
def ucC8 : UCat :=
  ⟨1, "tv", OId.num 4, WatchData.series [⟨some "2", ["1-3"]⟩], some "", "onwatch"⟩

/-- A lexicon enabling only the finished-season and started-season hooks. -/
def lexC8 : Lexicon :=
  ⟨[], [], [], [⟨"s\x7b0\x7d", 2, false⟩], [⟨"b\x7b0\x7d", 2, false⟩], [], [], [], [], []⟩

/-- A one-season tv catalog document. -/
def cW8 : CatalogItem := ⟨OId.num 6, "tv", "Al", [⟨1, ["a", "b"], some true⟩], true⟩

/-- A watch list aligned with `cW8`: entry 0 carries season 1. -/
def wsW8 : List SeasonWatch := [⟨some "1", ["1-2"]⟩]

/-- A progress record for `cW8` with the aligned watch list `wsW8`. -/
def ucW8 : UCat := ⟨1, "tv", OId.num 6, WatchData.series wsW8, some "", "onwatch"⟩

/-- A state tracking one movie for user 1, with its cached entry. -/
def db0C9 : DB :=
  ⟨[⟨OId.num 5, "movie", "M", [], true⟩],
   [⟨1, "movie", OId.num 5, WatchData.single true, some "", "done"⟩],
   [(1, [⟨OId.num 5, "movie", "t", true, "done"⟩])], [(1, ⟨none, some true⟩)]⟩

/-- An eight-episode tv catalog document. -/
def cC10 : CatalogItem :=
  ⟨OId.num 7, "tv", "Drift",
   [⟨1, ["e1", "e2", "e3", "e4", "e5", "e6", "e7", "e8"], some true⟩], true⟩

/-- A progress record for `cC10` that has drifted: only five of the eight
episodes are watched but the stored status still says `"done"`. -/
def ucC10 : UCat :=
  ⟨1, "tv", OId.num 7, WatchData.series [⟨some "1", ["1-5"]⟩], some "", "done"⟩

/-- The drifted state for user 1: the cached entry still carries
`checked = true` and `status = "done"`. -/
def dbC10 : DB :=
  ⟨[cC10], [ucC10], [(1, [⟨OId.num 7, "tv", "old text", true, "done"⟩])], []⟩

/-- A cached list in sync with `cC10` and the `"onwatch"` progress record
of `dbC4`: the text is the current render and `checked` matches the
recomputed status. -/
def ulC4 : List UEntry := [⟨OId.num 7, "tv", "Drift s1 e5", false, "onwatch"⟩]

/-- A drift-free state: the stored status and the cached entry agree with
what a synchronization recomputes. -/
def dbC4 : DB :=
  ⟨[cC10], [⟨1, "tv", OId.num 7, WatchData.series [⟨some "1", ["1-5"]⟩], some "", "onwatch"⟩],
   [(1, ulC4)], []⟩

/-- A bookSeries catalog document as the code stores it: one tome group
carrying `title` and `contents` but no `finished` key (api.py:462). -/
def cB : CatalogItem := ⟨OId.str "bn1", "books", "Saga", [⟨0, ["T1", "T2"], none⟩], false⟩

/-- A progress record for `cB` with no watch entry yet. -/
def ucB : UCat := ⟨1, "books", OId.str "bn1", WatchData.series [], some "", "towatch"⟩
theorem episodeRepair_stable (ws : List SeasonWatch) (e : SeasonWatch)
    (hws : ws ≠ []) (hget : ws.get? (lastStartedIdx ws) = some e) (hne : e.watched ≠ []) :
    episodeRepair ws = ws := by
  unfold episodeRepair
  rw [if_pos hws, hget]
  exact if_neg hne

theorem episodeStep_stable (i : LexEntry) (ws : List SeasonWatch) (e : SeasonWatch)
    (hws : ws ≠ []) (hget : ws.get? (lastStartedIdx ws) = some e) (hne : e.watched ≠ []) :
    (episodeStep i ws).2 = ws := by
  unfold episodeStep
  rw [episodeRepair_stable ws e hws hget hne]
  show (if episodeVal ws (lastStartedIdx ws) = 0 then (([] : List Frag), ws)
    else ([⟨pyFormat1 i.text (toString (episodeVal ws (lastStartedIdx ws))), i.position⟩], ws)).2 = ws
  split <;> rfl

theorem episodeFold_stable (entries : List LexEntry) (ws : List SeasonWatch) (e : SeasonWatch)
    (hws : ws ≠ []) (hget : ws.get? (lastStartedIdx ws) = some e) (hne : e.watched ≠ []) :
    (episodeFold entries ws).2 = ws := by
  unfold episodeFold
  suffices h : ∀ (fr : List Frag),
      (entries.foldl (fun acc i =>
        let st := episodeStep i acc.2
        (acc.1 ++ st.1, st.2)) (fr, ws)).2 = ws by
    exact h []
  induction entries with
  | nil => intro fr; rfl
  | cons i rest ih =>
      intro fr
      rw [List.foldl_cons]
      have hstep := episodeStep_stable i ws e hws hget hne
      simp only [hstep]
      exact ih _

theorem episodeFrags_some (c : CatalogItem) (u : UCat) (lex : Lexicon) (hty : c.type = "tv") :
    episodeFrags c (some u) lex =
      if enabledL lex.onEpisode = [] then ([], some u)
      else
        ((episodeFold (enabledL lex.onEpisode) (seasonsOf u.watch)).1,
          some { u with
            watch := WatchData.series
              (episodeFold (enabledL lex.onEpisode) (seasonsOf u.watch)).2 }) := by
  unfold episodeFrags
  rw [if_pos hty]

theorem C3_draft (c : CatalogItem) (uc : Option UCat) (lex : Lexicon)
    (h : c.type ≠ "tv" ∨ uc = none ∨
      (∃ u ws, uc = some u ∧ u.watch = WatchData.series ws ∧
        (enabledL lex.onEpisode = [] ∨
          (ws ≠ [] ∧ ∃ e, ws.get? (lastStartedIdx ws) = some e ∧ e.watched ≠ [])))) :
    (get_ulist_text c uc lex).2 = uc ∧
    (get_ulist_text c (get_ulist_text c uc lex).2 lex).1 = (get_ulist_text c uc lex).1 := by
  have key : (get_ulist_text c uc lex).2 = uc := by
    show (episodeFrags c uc lex).2 = uc
    rcases h with hty | hnone | ⟨u, ws, huc, hw, hcase⟩
    · unfold episodeFrags
      rw [if_neg hty]
    · subst hnone
      unfold episodeFrags
      by_cases hty : c.type = "tv"
      · rw [if_pos hty]
      · rw [if_neg hty]
    · subst huc
      by_cases hty : c.type = "tv"
      · rw [episodeFrags_some c u lex hty]
        rcases hcase with hen | ⟨hws, e, hget, hne⟩
        · rw [if_pos hen]
        · by_cases hen : enabledL lex.onEpisode = []
          · rw [if_pos hen]
          · rw [if_neg hen]
            have hs : seasonsOf u.watch = ws := by rw [hw]; rfl
            rw [hs, episodeFold_stable (enabledL lex.onEpisode) ws e hws hget hne]
            show some { u with watch := WatchData.series ws } = some u
            rw [← hw]
      · unfold episodeFrags
        rw [if_neg hty]
  exact ⟨key, by rw [key]⟩

theorem drop_cons_of_get? (l : List CSeason) (n : Nat) (s : CSeason) (h : l.get? n = some s) :
    l.drop n = s :: l.drop (n + 1) := by
  obtain ⟨hn, hget⟩ := List.get?_eq_some.mp h
  rw [List.drop_eq_getElem_cons hn]
  congr 1

theorem finishInner (c : CatalogItem) (i : LexEntry) :
    ∀ (n : Nat) (ws : List SeasonWatch),
    (∀ idx j, ws.get? idx = some j →
      ∃ s, c.contents.get? (n + idx) = some s ∧ j.season_number = some (toString s.season_number)) →
    (List.enumFrom n ws).filterMap (fun p =>
        if p.2.watched.length = 1 ∧ fullPairAt c p.1 (p.2.watched.headD "") then
          some (⟨pyFormat1 i.text (p.2.season_number.getD ""), i.position⟩ : Frag)
        else none) =
      (ws.zip (c.contents.drop n)).filterMap (fun q =>
        if q.1.watched.length = 1 ∧
            pySplitDash (q.1.watched.headD "") = ["1", toString q.2.contents.length] then
          some (⟨pyFormat1 i.text (toString q.2.season_number), i.position⟩ : Frag)
        else none)
  | n, [], _ => by simp
  | n, j :: ws', halign => by
      obtain ⟨s, hs, hsn⟩ := halign 0 j rfl
      rw [Nat.add_zero] at hs
      have hdrop := drop_cons_of_get? c.contents n s hs
      have hrec := finishInner c i (n + 1) ws' (fun idx j' hj' => by
        obtain ⟨s', hs', hsn'⟩ := halign (idx + 1) j' (by simpa using hj')
        exact ⟨s', by rw [← hs']; congr 1; omega, hsn'⟩)
      rw [hdrop, List.enumFrom_cons, List.zip_cons_cons, List.filterMap_cons, List.filterMap_cons]
      have hfp : fullPairAt c n (j.watched.headD "") =
          decide (pySplitDash (j.watched.headD "") = ["1", toString s.contents.length]) := by
        unfold fullPairAt
        rw [hs]
      by_cases hcond : j.watched.length = 1 ∧
          pySplitDash (j.watched.headD "") = ["1", toString s.contents.length]
      · rw [if_pos ⟨hcond.1, by rw [hfp]; exact decide_eq_true hcond.2⟩, if_pos hcond]
        rw [hsn]
        simp only [Option.getD_some]
        rw [hrec]
      · have h1 : ¬(j.watched.length = 1 ∧ fullPairAt c n (j.watched.headD "") = true) := by
          intro hcon
          exact hcond ⟨hcon.1, of_decide_eq_true (by rw [← hfp]; exact hcon.2)⟩
        rw [if_neg h1, if_neg hcond]
        exact hrec

theorem C8_draft (c : CatalogItem) (u : UCat) (ws : List SeasonWatch) (lex : Lexicon)
    (hty : c.type = "tv") (hw : u.watch = WatchData.series ws)
    (halign : ∀ idx j, ws.get? idx = some j →
      ∃ s, c.contents.get? idx = some s ∧ j.season_number = some (toString s.season_number)) :
    (∀ i ∈ enabledL lex.onStartedSeason, ∀ j ∈ ws, j.watched ≠ [] →
      (⟨pyFormat1 i.text (j.season_number.getD ""), i.position⟩ : Frag) ∈
        startedSeasonFrags c (some u) lex) ∧
    finishSeasonFrags c (some u) lex =
      (enabledL lex.onFinishSeason).flatMap (fun i =>
        (ws.zip c.contents).filterMap (fun q =>
          if q.1.watched.length = 1 ∧
              pySplitDash (q.1.watched.headD "") = ["1", toString q.2.contents.length] then
            some (⟨pyFormat1 i.text (toString q.2.season_number), i.position⟩ : Frag)
          else none)) := by
  have hs : seasonsOf u.watch = ws := by rw [hw]; rfl
  constructor
  · intro i hi j hj hne
    unfold startedSeasonFrags
    rw [if_pos hty, List.mem_flatMap]
    refine ⟨i, hi, ?_⟩
    show _ ∈ (seasonsOf u.watch).filterMap _
    rw [List.mem_filterMap]
    exact ⟨j, by rw [hs]; exact hj, by rw [if_pos hne]⟩
  · unfold finishSeasonFrags
    rw [if_pos hty]
    show (enabledL lex.onFinishSeason).flatMap _ = _
    congr 1
    funext i
    show (seasonsOf u.watch).enum.filterMap _ = _
    rw [hs, List.enum_eq_enumFrom]
    have := finishInner c i 0 ws (fun idx j hj => by
      obtain ⟨s, hgs, hsn⟩ := halign idx j hj
      exact ⟨s, by simpa using hgs, hsn⟩)
    simpa using this

theorem C5_draft (uid : Int) (ty : String) (id0 : OId) (sn : String) (l : List String) (db : DB)
    (h : ∃ t ∈ l, valid_format_ucatalalog t = false) :
    update_ucatalog uid ty id0 sn (Changes.list l) db = some (UpdRes.error, db) := by
  unfold update_ucatalog
  have hany : l.any (fun s => !valid_format_ucatalalog s) = true := by
    rw [List.any_eq_true]
    obtain ⟨t, ht, hv⟩ := h
    exact ⟨t, ht, by rw [hv]; rfl⟩
  simp [hany]

theorem findUlist_pushUlist (uid : Int) (e : UEntry) :
    ∀ (l : List (Int × List UEntry)),
    (List.find? (fun p => decide (p.1 = uid)) (pushUlist uid e l)).map (fun p => p.2) =
      some (((List.find? (fun p => decide (p.1 = uid)) l).map (fun p => p.2)).getD [] ++ [e])
  | [] => by simp [pushUlist]
  | p :: rest => by
      by_cases hp : p.1 = uid
      · unfold pushUlist
        rw [if_pos hp]
        rw [List.find?_cons_of_pos _ (by simpa using hp), List.find?_cons_of_pos _ (by simpa using hp)]
        simp
      · unfold pushUlist
        rw [if_neg hp]
        rw [List.find?_cons_of_neg _ (by simpa using hp), List.find?_cons_of_neg _ (by simpa using hp)]
        exact findUlist_pushUlist uid e rest

theorem C6_part1 (uid : Int) (ty : String) (id0 : OId) (db : DB) (u : UCat)
    (hu : u ∈ db.ucatalog) (h1 : u.user_id = uid) (h2 : u.type = ty)
    (h3 : u.id = normalizeId id0) :
    add_ulist uid ty id0 db = some (AddRes.alreadyTracked, db) := by
  simp only [add_ulist]
  have hpos : (db.ucatalog.filter
      (fun v => decide (v.user_id = uid ∧ v.type = ty ∧ v.id = normalizeId id0))).length > 0 := by
    have hm : u ∈ db.ucatalog.filter
        (fun v => decide (v.user_id = uid ∧ v.type = ty ∧ v.id = normalizeId id0)) :=
      List.mem_filter.mpr ⟨hu, decide_eq_true ⟨h1, h2, h3⟩⟩
    exact List.length_pos.mpr (List.ne_nil_of_mem hm)
  rw [if_pos hpos]

theorem C6_part2 (uid : Int) (ty : String) (id0 : OId) (db : DB)
    (hno : ∀ u ∈ db.ucatalog, ¬(u.user_id = uid ∧ u.type = ty ∧ u.id = normalizeId id0))
    (hcat : ∀ c ∈ db.catalog, ¬(c.original_id = normalizeId id0 ∧ c.type = ty)) :
    add_ulist uid ty id0 db = some (AddRes.notFound, db) := by
  simp only [add_ulist]
  have hzero : ¬((db.ucatalog.filter
      (fun v => decide (v.user_id = uid ∧ v.type = ty ∧ v.id = normalizeId id0))).length > 0) := by
    intro hcon
    obtain ⟨u, hu⟩ := List.exists_mem_of_length_pos hcon
    obtain ⟨hmem, hdec⟩ := List.mem_filter.mp hu
    exact hno u hmem (of_decide_eq_true hdec)
  rw [if_neg hzero]
  have hfind : db.catalog.find?
      (fun c => decide (c.original_id = normalizeId id0 ∧ c.type = ty)) = none := by
    rw [List.find?_eq_none]
    intro c hc
    simp only [decide_eq_true_eq]
    exact hcat c hc
  rw [hfind]

theorem C6_part3 (uid : Int) (ty : String) (id0 : OId) (db : DB) (cat : CatalogItem)
    (lex : Lexicon)
    (hno : ∀ u ∈ db.ucatalog, ¬(u.user_id = uid ∧ u.type = ty ∧ u.id = normalizeId id0))
    (hfind : db.catalog.find?
      (fun c => decide (c.original_id = normalizeId id0 ∧ c.type = ty)) = some cat)
    (hlex : get_lexicon uid db = some lex) :
    ∃ db1,
      add_ulist uid ty id0 db =
        some (AddRes.ok (get_ulist_text cat none lex).1 ty (normalizeId id0), db1) ∧
      db1.ucatalog = db.ucatalog ++
        [⟨uid, ty, normalizeId id0, WatchData.series [], some "", "towatch"⟩] ∧
      findUlist uid db1 = some ((findUlist uid db).getD [] ++
        [⟨cat.original_id, cat.type, (get_ulist_text cat none lex).1, false, "towatch"⟩]) ∧
      db1.catalog = db.catalog ∧ db1.settings = db.settings ∧
      ((findUlist uid db1).getD []).countP
          (fun e => decide (e.id = cat.original_id ∧ e.type = cat.type)) =
        ((findUlist uid db).getD []).countP
          (fun e => decide (e.id = cat.original_id ∧ e.type = cat.type)) + 1 := by
  have hzero : ¬((db.ucatalog.filter
      (fun v => decide (v.user_id = uid ∧ v.type = ty ∧ v.id = normalizeId id0))).length > 0) := by
    intro hcon
    obtain ⟨u, hu⟩ := List.exists_mem_of_length_pos hcon
    obtain ⟨hmem, hdec⟩ := List.mem_filter.mp hu
    exact hno u hmem (of_decide_eq_true hdec)
  refine ⟨{ db with
      ulist := pushUlist uid
        ⟨cat.original_id, cat.type, (get_ulist_text cat none lex).1, false, "towatch"⟩ db.ulist,
      ucatalog := db.ucatalog ++
        [⟨uid, ty, normalizeId id0, WatchData.series [], some "", "towatch"⟩] },
    ?_, rfl, ?_, rfl, rfl, ?_⟩
  · simp only [add_ulist]
    rw [if_neg hzero, hfind, hlex]
    rfl
  · show (List.find? (fun p => decide (p.1 = uid)) (pushUlist uid _ db.ulist)).map
      (fun p => p.2) = _
    rw [findUlist_pushUlist]
    rfl
  · show (((List.find? (fun p => decide (p.1 = uid)) (pushUlist uid _ db.ulist)).map
        (fun p => p.2)).getD []).countP
      (fun e => decide (e.id = cat.original_id ∧ e.type = cat.type)) = _
    rw [findUlist_pushUlist]
    simp only [Option.getD_some]
    rw [List.countP_append]
    simp only [List.countP_cons, List.countP_nil]
    norm_num
    rfl

theorem C6_part4 (uid : Int) (ty : String) (id0 : OId) (db : DB) (t rty : String) (rid : OId)
    (db1 : DB) (h : add_ulist uid ty id0 db = some (AddRes.ok t rty rid, db1)) :
    add_ulist uid ty id0 db1 = some (AddRes.alreadyTracked, db1) := by
  simp only [add_ulist] at h
  by_cases hg : (db.ucatalog.filter
      (fun v => decide (v.user_id = uid ∧ v.type = ty ∧ v.id = normalizeId id0))).length > 0
  · rw [if_pos hg] at h
    simp at h
  · rw [if_neg hg] at h
    cases hfind : db.catalog.find?
        (fun c => decide (c.original_id = normalizeId id0 ∧ c.type = ty)) with
    | none =>
        rw [hfind] at h
        simp at h
    | some dcat =>
        rw [hfind] at h
        cases hlex : get_lexicon uid db with
        | none =>
            rw [hlex] at h
            simp at h
        | some lex =>
            rw [hlex] at h
            simp only [Option.map_some', Option.some.injEq, Prod.mk.injEq] at h
            refine C6_part1 uid ty id0 db1
              ⟨uid, ty, normalizeId id0, WatchData.series [], some "", "towatch"⟩ ?_ rfl rfl rfl
            rw [← h.2]
            exact List.mem_append_right _ (List.mem_singleton.mpr rfl)

theorem tierFoldLemma :
    ∀ (rs : List (UCat × CatalogItem)),
    (∀ p ∈ rs, rankKey p.1.rank ∈ (["S", "A", "B", "C", "D", "E", "F", "Unknown"] : List String)) →
    ∀ (b : Buckets),
    rs.foldl (fun acc p => acc.bind (fun b => tierInsert b (rankKey p.1.rank) (tierItemOf p)))
      (some b) =
      some ⟨b.S ++ rs.filterMap (fun p => if rankKey p.1.rank = "S" then some (tierItemOf p) else none),
            b.A ++ rs.filterMap (fun p => if rankKey p.1.rank = "A" then some (tierItemOf p) else none),
            b.B ++ rs.filterMap (fun p => if rankKey p.1.rank = "B" then some (tierItemOf p) else none),
            b.C ++ rs.filterMap (fun p => if rankKey p.1.rank = "C" then some (tierItemOf p) else none),
            b.D ++ rs.filterMap (fun p => if rankKey p.1.rank = "D" then some (tierItemOf p) else none),
            b.E ++ rs.filterMap (fun p => if rankKey p.1.rank = "E" then some (tierItemOf p) else none),
            b.F ++ rs.filterMap (fun p => if rankKey p.1.rank = "F" then some (tierItemOf p) else none),
            b.Unknown ++ rs.filterMap (fun p => if rankKey p.1.rank = "Unknown" then some (tierItemOf p) else none)⟩
  | [], _, b => by simp
  | p :: rs', hall, b => by
      have hk := hall p (List.mem_cons_self p rs')
      have hall' : ∀ q ∈ rs', rankKey q.1.rank ∈
          (["S", "A", "B", "C", "D", "E", "F", "Unknown"] : List String) :=
        fun q hq => hall q (List.mem_cons_of_mem p hq)
      rw [List.foldl_cons, Option.some_bind]
      simp only [List.mem_cons, List.mem_singleton, List.not_mem_nil, or_false] at hk
      rcases hk with h | h | h | h | h | h | h | h
      · have hins : tierInsert b (rankKey p.1.rank) (tierItemOf p) =
            some { b with S := b.S ++ [tierItemOf p] } := by
          rw [h]
          simp [tierInsert]
        rw [hins, tierFoldLemma rs' hall']
        simp [h, List.filterMap_cons, List.append_assoc]
      · have hins : tierInsert b (rankKey p.1.rank) (tierItemOf p) =
            some { b with A := b.A ++ [tierItemOf p] } := by
          rw [h]
          simp [tierInsert]
        rw [hins, tierFoldLemma rs' hall']
        simp [h, List.filterMap_cons, List.append_assoc]
      · have hins : tierInsert b (rankKey p.1.rank) (tierItemOf p) =
            some { b with B := b.B ++ [tierItemOf p] } := by
          rw [h]
          simp [tierInsert]
        rw [hins, tierFoldLemma rs' hall']
        simp [h, List.filterMap_cons, List.append_assoc]
      · have hins : tierInsert b (rankKey p.1.rank) (tierItemOf p) =
            some { b with C := b.C ++ [tierItemOf p] } := by
          rw [h]
          simp [tierInsert]
        rw [hins, tierFoldLemma rs' hall']
        simp [h, List.filterMap_cons, List.append_assoc]
      · have hins : tierInsert b (rankKey p.1.rank) (tierItemOf p) =
            some { b with D := b.D ++ [tierItemOf p] } := by
          rw [h]
          simp [tierInsert]
        rw [hins, tierFoldLemma rs' hall']
        simp [h, List.filterMap_cons, List.append_assoc]
      · have hins : tierInsert b (rankKey p.1.rank) (tierItemOf p) =
            some { b with E := b.E ++ [tierItemOf p] } := by
          rw [h]
          simp [tierInsert]
        rw [hins, tierFoldLemma rs' hall']
        simp [h, List.filterMap_cons, List.append_assoc]
      · have hins : tierInsert b (rankKey p.1.rank) (tierItemOf p) =
            some { b with F := b.F ++ [tierItemOf p] } := by
          rw [h]
          simp [tierInsert]
        rw [hins, tierFoldLemma rs' hall']
        simp [h, List.filterMap_cons, List.append_assoc]
      · have hins : tierInsert b (rankKey p.1.rank) (tierItemOf p) =
            some { b with Unknown := b.Unknown ++ [tierItemOf p] } := by
          rw [h]
          simp [tierInsert]
        rw [hins, tierFoldLemma rs' hall']
        simp [h, List.filterMap_cons, List.append_assoc]

theorem find?_updateFirstUCat (pred : UCat → Bool) (f : UCat → UCat)
    (hpf : ∀ u, pred u = true → pred (f u) = true) :
    ∀ (l : List UCat) (u : UCat), l.find? pred = some u →
      (updateFirstUCat pred f l).find? pred = some (f u)
  | [], u, h => by simp at h
  | v :: rest, u, h => by
      by_cases hv : pred v = true
      · rw [List.find?_cons_of_pos _ hv] at h
        injection h with h'
        subst h'
        unfold updateFirstUCat
        rw [if_pos hv]
        exact List.find?_cons_of_pos _ (hpf v hv)
      · rw [List.find?_cons_of_neg _ hv] at h
        unfold updateFirstUCat
        rw [if_neg hv, List.find?_cons_of_neg _ hv]
        exact find?_updateFirstUCat pred f hpf rest u h

theorem C9_setrank_part (uid : Int) (ty : String) (id0 : OId) (rank : String) (db : DB)
    (out : (String × String × Bool) × DB) (u : UCat)
    (hget : get_ucatalog uid ty (normalizeId id0) db = some u)
    (h : set_rank uid ty id0 rank db = some out) :
    get_ucatalog uid ty (normalizeId id0) out.2 = some { u with rank := some rank } := by
  simp only [set_rank, hget, Option.some_bind] at h
  cases hcat : findCatalog ty (normalizeId id0) (rankWrite uid ty (normalizeId id0) rank db) with
  | none =>
      rw [hcat] at h
      simp at h
  | some cat =>
      rw [hcat] at h
      cases hlex : get_lexicon uid (rankWrite uid ty (normalizeId id0) rank db) with
      | none =>
          rw [Option.some_bind, hlex] at h
          simp at h
      | some lex =>
          rw [Option.some_bind, hlex] at h
          simp only [Option.map_some', Option.some.injEq] at h
          have hu : out.2.ucatalog = updateFirstUCat
              (fun v => decide (v.user_id = uid ∧ v.type = ty ∧ v.id = normalizeId id0))
              (fun v => { v with rank := some rank }) db.ucatalog := by
            rw [← h]
            rfl
          show (out.2.ucatalog.find?
            (fun v => decide (v.user_id = uid ∧ v.type = ty ∧ v.id = normalizeId id0))) = _
          rw [hu]
          exact find?_updateFirstUCat _ _
            (fun v hv => by
              have := of_decide_eq_true hv
              exact decide_eq_true ⟨this.1, this.2.1, this.2.2⟩)
            db.ucatalog u hget

theorem applyEntries_repr (c : CatalogItem) (lex : Lexicon) :
    ∀ (l : List UEntry) (u : UCat),
    (applyEntries c lex u l).1 = mergeVals l (resultVals c lex u (l.map epair))
  | [], u => rfl
  | e :: l, u => by
      unfold applyEntries
      show _ = mergeVals (e :: l) (resultVals c lex u (epair e :: l.map epair))
      unfold resultVals
      by_cases hm : e.id = u.id ∧ e.type = u.type
      · rw [if_pos hm, if_pos (show (epair e).1 = u.id ∧ (epair e).2 = u.type from hm)]
        unfold mergeVals
        simp only []
        rw [applyEntries_repr c lex l (((get_ulist_text c (some u) lex).2).getD u)]
      · rw [if_neg hm, if_neg (show ¬((epair e).1 = u.id ∧ (epair e).2 = u.type) from hm)]
        unfold mergeVals
        simp only []
        rw [applyEntries_repr c lex l u]

theorem resultVals_length (c : CatalogItem) (lex : Lexicon) :
    ∀ (ks : List (OId × String)) (u : UCat), (resultVals c lex u ks).length = ks.length
  | [], _ => rfl
  | k :: ks, u => by
      unfold resultVals
      by_cases hm : k.1 = u.id ∧ k.2 = u.type
      · rw [if_pos hm]
        simp [resultVals_length c lex ks]
      · rw [if_neg hm]
        simp [resultVals_length c lex ks]

theorem mergeVals_epair :
    ∀ (l : List UEntry) (vs : List (Option (String × Bool))),
    (mergeVals l vs).map epair = l.map epair
  | [], _ => by cases ‹List (Option (String × Bool))› <;> rfl
  | e :: l, [] => rfl
  | e :: l, v :: vs => by
      unfold mergeVals
      cases v with
      | some tc => simp [epair, mergeVals_epair l vs]
      | none => simp [epair, mergeVals_epair l vs]

theorem combineVals_length :
    ∀ (v1 v2 : List (Option (String × Bool))), v2.length = v1.length →
    (combineVals v1 v2).length = v1.length
  | [], _, _ => rfl
  | a :: v1, [], h => by simp at h
  | a :: v1, b :: v2, h => by
      unfold combineVals
      simp only [List.length_cons]
      rw [combineVals_length v1 v2 (by simpa using h)]

theorem allVals_length (sr : SettingsR) (lex : Lexicon) :
    ∀ (rs : List (UCat × CatalogItem)) (ks : List (OId × String)),
    (allVals sr lex rs ks).length = ks.length
  | [], ks => by simp [allVals]
  | r :: rs, ks => by
      unfold allVals
      rw [combineVals_length]
      · exact resultVals_length _ _ ks _
      · rw [allVals_length sr lex rs ks, resultVals_length]

theorem mergeVals_merge :
    ∀ (l : List UEntry) (v1 v2 : List (Option (String × Bool))),
    v1.length = l.length → v2.length = l.length →
    mergeVals (mergeVals l v1) v2 = mergeVals l (combineVals v1 v2)
  | [], v1, v2, h1, h2 => by
      rw [List.length_nil, List.length_eq_zero] at h1 h2
      subst h1; subst h2
      rfl
  | e :: l, v1, v2, h1, h2 => by
      cases v1 with
      | nil => simp at h1
      | cons a v1 =>
          cases v2 with
          | nil => simp at h2
          | cons b v2 =>
              have ih := mergeVals_merge l v1 v2 (by simpa using h1) (by simpa using h2)
              cases a with
              | none =>
                  cases b with
                  | none =>
                      show (e :: mergeVals (mergeVals l v1) v2) =
                        (e :: mergeVals l (combineVals v1 v2))
                      rw [ih]
                  | some x =>
                      show ({ e with text := x.1, checked := x.2 } ::
                          mergeVals (mergeVals l v1) v2) =
                        ({ e with text := x.1, checked := x.2 } ::
                          mergeVals l (combineVals v1 v2))
                      rw [ih]
              | some y =>
                  cases b with
                  | none =>
                      show ({ e with text := y.1, checked := y.2 } ::
                          mergeVals (mergeVals l v1) v2) =
                        ({ e with text := y.1, checked := y.2 } ::
                          mergeVals l (combineVals v1 v2))
                      rw [ih]
                  | some x =>
                      show ({ e with text := x.1, checked := x.2 } ::
                          mergeVals (mergeVals l v1) v2) =
                        ({ e with text := x.1, checked := x.2 } ::
                          mergeVals l (combineVals v1 v2))
                      rw [ih]

theorem combineVals_self :
    ∀ (v : List (Option (String × Bool))), combineVals v v = v
  | [] => rfl
  | a :: v => by
      unfold combineVals
      cases a with
      | none => rw [combineVals_self v]
      | some x => rw [combineVals_self v]

theorem mergeVals_replicate_none :
    ∀ (l : List UEntry), mergeVals l (List.replicate l.length none) = l
  | [] => rfl
  | e :: l => by
      show (e :: mergeVals l (List.replicate l.length none)) = e :: l
      rw [mergeVals_replicate_none l]

theorem hrApplyL_repr (sr : SettingsR) (lex : Lexicon) :
    ∀ (rs : List (UCat × CatalogItem)) (l : List UEntry),
    hrApplyL sr lex rs l = mergeVals l (allVals sr lex rs (l.map epair))
  | [], l => by
      show l = mergeVals l (List.replicate (l.map epair).length none)
      rw [List.length_map, mergeVals_replicate_none]
  | r :: rs, l => by
      show hrApplyL sr lex rs
          (applyEntries r.2 lex { r.1 with status := get_status r.2 r.1 false sr } l).1 = _
      rw [hrApplyL_repr sr lex rs, applyEntries_repr, mergeVals_epair, mergeVals_merge]
      · rfl
      · rw [resultVals_length, List.length_map]
      · rw [allVals_length, List.length_map]

theorem hrApplyL_idem (sr : SettingsR) (lex : Lexicon)
    (rs : List (UCat × CatalogItem)) (l : List UEntry) :
    hrApplyL sr lex rs (hrApplyL sr lex rs l) = hrApplyL sr lex rs l := by
  rw [hrApplyL_repr sr lex rs l, hrApplyL_repr sr lex rs, mergeVals_epair, mergeVals_merge,
    combineVals_self]
  · rw [allVals_length, List.length_map]
  · rw [allVals_length, List.length_map]

theorem hrFold_foldl_snd (sr : SettingsR) (lex : Lexicon) (uid : Int) :
    ∀ (rs : List (UCat × CatalogItem)) (ops : List StatusOp) (l : List UEntry),
    (rs.foldl
      (fun acc p =>
        let u := p.1
        let c := p.2
        let newst := get_status c u false sr
        let ops := if u.status ≠ newst then acc.1 ++ [⟨uid, u.type, u.id, newst⟩] else acc.1
        let ae := applyEntries c lex { u with status := newst } acc.2
        (ops, ae.1)) (ops, l)).2 = hrApplyL sr lex rs l
  | [], ops, l => rfl
  | r :: rs, ops, l => by
      rw [List.foldl_cons]
      exact hrFold_foldl_snd sr lex uid rs _ _

theorem hrFold_snd (sr : SettingsR) (lex : Lexicon) (uid : Int)
    (rs : List (UCat × CatalogItem)) (l : List UEntry) :
    (hrFold sr lex uid rs l).2 = hrApplyL sr lex rs l :=
  hrFold_foldl_snd sr lex uid rs [] l

theorem hrFold_foldl_fst (sr : SettingsR) (lex : Lexicon) (uid : Int) :
    ∀ (rs : List (UCat × CatalogItem)),
    (∀ r ∈ rs, get_status r.2 r.1 false sr = r.1.status) →
    ∀ (ops : List StatusOp) (l : List UEntry),
    (rs.foldl
      (fun acc p =>
        let u := p.1
        let c := p.2
        let newst := get_status c u false sr
        let ops := if u.status ≠ newst then acc.1 ++ [⟨uid, u.type, u.id, newst⟩] else acc.1
        let ae := applyEntries c lex { u with status := newst } acc.2
        (ops, ae.1)) (ops, l)).1 = ops
  | [], _, ops, l => rfl
  | r :: rs, hall, ops, l => by
      rw [List.foldl_cons]
      have hr := hall r (List.mem_cons_self r rs)
      have hcond : ¬(r.1.status ≠ get_status r.2 r.1 false sr) := by
        rw [hr]
        exact fun hcon => hcon rfl
      simp only [if_neg hcond]
      exact hrFold_foldl_fst sr lex uid rs
        (fun q hq => hall q (List.mem_cons_of_mem r hq)) ops _

theorem hrFold_fst_nil (sr : SettingsR) (lex : Lexicon) (uid : Int)
    (rs : List (UCat × CatalogItem)) (l : List UEntry)
    (hall : ∀ r ∈ rs, get_status r.2 r.1 false sr = r.1.status) :
    (hrFold sr lex uid rs l).1 = [] :=
  hrFold_foldl_fst sr lex uid rs hall [] l

theorem hrApplyL_epair (sr : SettingsR) (lex : Lexicon)
    (rs : List (UCat × CatalogItem)) (l : List UEntry) :
    (hrApplyL sr lex rs l).map epair = l.map epair := by
  rw [hrApplyL_repr, mergeVals_epair]

theorem mergeVals_length :
    ∀ (l : List UEntry) (vs : List (Option (String × Bool))),
    (mergeVals l vs).length = l.length
  | [], vs => by cases vs <;> rfl
  | e :: l, [] => rfl
  | e :: l, v :: vs => by
      show (mergeVals (e :: l) (v :: vs)).length = l.length + 1
      unfold mergeVals
      simp only [List.length_cons]
      rw [mergeVals_length l vs]

theorem hrApplyL_length (sr : SettingsR) (lex : Lexicon)
    (rs : List (UCat × CatalogItem)) (l : List UEntry) :
    (hrApplyL sr lex rs l).length = l.length := by
  rw [hrApplyL_repr, mergeVals_length]

theorem find?_setUlist (uid : Int) (l' : List UEntry) :
    ∀ (m : List (Int × List UEntry)) (k : Int) (l : List UEntry),
    m.find? (fun p => decide (p.1 = uid)) = some (k, l) →
    (setUlist uid l' m).find? (fun p => decide (p.1 = uid)) = some (uid, l')
  | [], k, l, h => by simp at h
  | p :: m, k, l, h => by
      by_cases hp : p.1 = uid
      · unfold setUlist
        rw [if_pos hp]
        exact List.find?_cons_of_pos _ (by simp)
      · rw [List.find?_cons_of_neg _ (by simpa using hp)] at h
        unfold setUlist
        rw [if_neg hp, List.find?_cons_of_neg _ (by simpa using hp)]
        exact find?_setUlist uid l' m k l h

theorem setUlist_self (uid : Int) :
    ∀ (m : List (Int × List UEntry)) (l : List UEntry),
    m.find? (fun p => decide (p.1 = uid)) = some (uid, l) →
    setUlist uid l m = m
  | [], l, h => by simp at h
  | p :: m, l, h => by
      by_cases hp : p.1 = uid
      · rw [List.find?_cons_of_pos _ (by simpa using hp)] at h
        injection h with h'
        unfold setUlist
        rw [if_pos hp, ← h']
      · rw [List.find?_cons_of_neg _ (by simpa using hp)] at h
        unfold setUlist
        rw [if_neg hp, setUlist_self uid m l h]

theorem setUlist_cons (uid : Int) (l : List UEntry) (p : Int × List UEntry)
    (m : List (Int × List UEntry)) :
    setUlist uid l (p :: m) = if p.1 = uid then (uid, l) :: m else p :: setUlist uid l m := rfl

theorem setUlist_setUlist (uid : Int) (l1 l2 : List UEntry) :
    ∀ (m : List (Int × List UEntry)),
    setUlist uid l2 (setUlist uid l1 m) = setUlist uid l2 m
  | [] => rfl
  | p :: m => by
      rw [setUlist_cons, setUlist_cons]
      by_cases hp : p.1 = uid
      · rw [if_pos hp, if_pos hp, setUlist_cons]
        rw [if_pos rfl]
      · rw [if_neg hp, if_neg hp, setUlist_cons, if_neg hp,
          setUlist_setUlist uid l1 l2 m]

theorem resultPairs_eq_map_epair (l : List UEntry) : resultPairs l = l.map epair := rfl

theorem hard_reload_core_cons (uid : Int) (db : DB) (doc : Int × List UEntry)
    (hfind : db.ulist.find? (fun p => decide (p.1 = uid)) = some doc) (hne : doc.2 ≠ []) :
    hard_reload_core uid db =
      some ((hrOut uid db doc.2).1,
            { db with ulist := setUlist uid (hrOut uid db doc.2).2 db.ulist },
            (hrOut uid db doc.2).2) := by
  unfold hard_reload_core
  rw [hfind]
  show (if doc.2 = [] then some ([], db, doc.2) else _) = _
  rw [if_neg hne]

theorem hard_reload_core_nil (uid : Int) (db : DB) (doc : Int × List UEntry)
    (hfind : db.ulist.find? (fun p => decide (p.1 = uid)) = some doc) (he : doc.2 = []) :
    hard_reload_core uid db = some ([], db, doc.2) := by
  unfold hard_reload_core
  rw [hfind]
  show (if doc.2 = [] then some ([], db, doc.2) else _) = _
  rw [if_pos he]

theorem hrOut_snd (uid : Int) (db : DB) (l : List UEntry) :
    (hrOut uid db l).2 = hrApplyL (get_settings uid db) (get_settings uid db).lexicon
      (hrResults uid (resultPairs l) db) l :=
  hrFold_snd _ _ _ _ _

theorem C4_part1 (uid : Int) (db : DB) (out : DB × List UEntry)
    (h : hard_reload uid db = some out) : hard_reload uid out.1 = some out := by
  unfold hard_reload at h
  cases hcore : hard_reload_core uid db with
  | none =>
      rw [hcore] at h
      exact absurd h (by simp)
  | some x =>
      rw [hcore] at h
      simp only [Option.map_some', Option.some.injEq] at h
      cases hfind : db.ulist.find? (fun p => decide (p.1 = uid)) with
      | none =>
          unfold hard_reload_core at hcore
          rw [hfind] at hcore
          exact absurd hcore (by simp)
      | some doc =>
          by_cases hemp : doc.2 = []
          · have hxe : x = ([], db, doc.2) :=
              (Option.some.inj ((hard_reload_core_nil uid db doc hfind hemp).symm.trans
                hcore)).symm
            rw [← h, hxe]
            show hard_reload uid db = some (db, doc.2)
            unfold hard_reload
            rw [hard_reload_core_nil uid db doc hfind hemp]
            rfl
          · have hxe : x = ((hrOut uid db doc.2).1,
                { db with ulist := setUlist uid (hrOut uid db doc.2).2 db.ulist },
                (hrOut uid db doc.2).2) :=
              (Option.some.inj ((hard_reload_core_cons uid db doc hfind hemp).symm.trans
                hcore)).symm
            rw [← h, hxe]
            have hfind2 : (setUlist uid (hrOut uid db doc.2).2 db.ulist).find?
                (fun p => decide (p.1 = uid)) = some (uid, (hrOut uid db doc.2).2) :=
              find?_setUlist uid (hrOut uid db doc.2).2 db.ulist doc.1 doc.2
                (by rw [hfind])
            have hlen : (hrOut uid db doc.2).2.length = doc.2.length := by
              rw [hrOut_snd, hrApplyL_length]
            have hne1 : (hrOut uid db doc.2).2 ≠ [] := by
              intro hcon
              apply hemp
              rw [← List.length_eq_zero, ← hlen, hcon]
              rfl
            have hceq2 := hard_reload_core_cons uid
              { db with ulist := setUlist uid (hrOut uid db doc.2).2 db.ulist }
              (uid, (hrOut uid db doc.2).2) hfind2 hne1
            have hpairs : resultPairs (hrOut uid db doc.2).2 = resultPairs doc.2 := by
              rw [resultPairs_eq_map_epair, resultPairs_eq_map_epair, hrOut_snd,
                hrApplyL_epair]
            have hkey : (hrOut uid
                { db with ulist := setUlist uid (hrOut uid db doc.2).2 db.ulist }
                (hrOut uid db doc.2).2).2 = (hrOut uid db doc.2).2 := by
              show (hrFold (get_settings uid db) (get_settings uid db).lexicon uid
                (hrResults uid (resultPairs (hrOut uid db doc.2).2) db)
                (hrOut uid db doc.2).2).2 = _
              rw [hpairs, hrFold_snd, hrOut_snd, hrApplyL_idem]
            show ((hard_reload_core uid
              { db with ulist := setUlist uid (hrOut uid db doc.2).2 db.ulist }).map
                (fun y => (y.2.1, y.2.2))) = _
            rw [hceq2, hkey, setUlist_setUlist]
            rfl

theorem C4_part2 (uid : Int) (db : DB) (doc : Int × List UEntry)
    (hfind : db.ulist.find? (fun p => decide (p.1 = uid)) = some doc)
    (hstat : ∀ r ∈ hrResults uid (resultPairs doc.2) db,
      get_status r.2 r.1 false (get_settings uid db) = r.1.status)
    (hcache : (hrOut uid db doc.2).2 = doc.2) :
    hard_reload_core uid db = some ([], db, doc.2) := by
  by_cases hemp : doc.2 = []
  · exact hard_reload_core_nil uid db doc hfind hemp
  · rw [hard_reload_core_cons uid db doc hfind hemp]
    have hops : (hrOut uid db doc.2).1 = [] := hrFold_fst_nil _ _ _ _ _ hstat
    have hk : doc.1 = uid := by simpa using List.find?_some hfind
    have hdoc : doc = (uid, doc.2) := by
      rw [← hk]
    have hself : setUlist uid doc.2 db.ulist = db.ulist :=
      setUlist_self uid db.ulist doc.2 (by rw [hfind, hdoc])
    rw [hops, hcache, hself]

theorem mem_updateFirstEntry (id : OId) (ty : String) (f : UEntry → UEntry) :
    ∀ (l : List UEntry) (e : UEntry), e ∈ updateFirstEntry id ty f l →
      e ∈ l ∨ ∃ e', e' ∈ l ∧ e = f e'
  | [], e, h => by simp [updateFirstEntry] at h
  | e0 :: l, e, h => by
      unfold updateFirstEntry at h
      by_cases h0 : e0.id = id ∧ e0.type = ty
      · rw [if_pos h0] at h
        rcases List.mem_cons.mp h with he | he
        · exact Or.inr ⟨e0, List.mem_cons_self e0 l, he⟩
        · exact Or.inl (List.mem_cons_of_mem e0 he)
      · rw [if_neg h0] at h
        rcases List.mem_cons.mp h with he | he
        · exact Or.inl (he ▸ List.mem_cons_self e0 l)
        · rcases mem_updateFirstEntry id ty f l e he with h1 | ⟨e', he', hf⟩
          · exact Or.inl (List.mem_cons_of_mem e0 h1)
          · exact Or.inr ⟨e', List.mem_cons_of_mem e0 he', hf⟩

theorem findUlist_updateUlistEntry (uid : Int) (id : OId) (ty : String) (f : UEntry → UEntry) :
    ∀ (m : List (Int × List UEntry)),
    (Option.map (fun p => p.2)
        ((updateUlistEntry uid id ty f m).find? (fun p => decide (p.1 = uid)))) =
      Option.map (fun p => p.2) (m.find? (fun p => decide (p.1 = uid))) ∨
    (∃ l0, Option.map (fun p => p.2) (m.find? (fun p => decide (p.1 = uid))) = some l0 ∧
      Option.map (fun p => p.2)
          ((updateUlistEntry uid id ty f m).find? (fun p => decide (p.1 = uid))) =
        some (updateFirstEntry id ty f l0))
  | [] => Or.inl rfl
  | p :: m => by
      unfold updateUlistEntry
      by_cases hp : p.1 = uid ∧ p.2.any (fun e => decide (e.id = id ∧ e.type = ty))
      · rw [if_pos hp]
        right
        refine ⟨p.2, ?_, ?_⟩
        · rw [List.find?_cons_of_pos _ (by simpa using hp.1)]
          rfl
        · rw [List.find?_cons_of_pos _ (by simpa using hp.1)]
          rfl
      · rw [if_neg hp]
        by_cases hu : p.1 = uid
        · left
          rw [List.find?_cons_of_pos _ (by simpa using hu),
            List.find?_cons_of_pos _ (by simpa using hu)]
        · rw [List.find?_cons_of_neg _ (by simpa using hu),
            List.find?_cons_of_neg _ (by simpa using hu)]
          exact findUlist_updateUlistEntry uid id ty f m

theorem mem_userListOf_updateUlistEntry (uid : Int) (id : OId) (ty : String)
    (f : UEntry → UEntry) (m : List (Int × List UEntry)) (e : UEntry)
    (h : e ∈ (Option.map (fun p => p.2)
      ((updateUlistEntry uid id ty f m).find? (fun p => decide (p.1 = uid)))).getD []) :
    e ∈ (Option.map (fun p => p.2) (m.find? (fun p => decide (p.1 = uid)))).getD [] ∨
      ∃ e', e' ∈ (Option.map (fun p => p.2) (m.find? (fun p => decide (p.1 = uid)))).getD [] ∧
        e = f e' := by
  rcases findUlist_updateUlistEntry uid id ty f m with heq | ⟨l0, hl0, heq⟩
  · rw [heq] at h
    exact Or.inl h
  · rw [heq] at h
    simp only [Option.getD_some] at h
    rcases mem_updateFirstEntry id ty f l0 e h with h1 | ⟨e', he', hf⟩
    · rw [hl0]
      exact Or.inl h1
    · refine Or.inr ⟨e', ?_, hf⟩
      rw [hl0]
      exact he'

theorem C10_add (uid : Int) (ty : String) (id0 : OId) (db : DB) (r : AddRes) (db1 : DB)
    (h : add_ulist uid ty id0 db = some (r, db1)) :
    ∀ e ∈ userListOf uid db1, e ∈ userListOf uid db ∨ entryInv e := by
  simp only [add_ulist] at h
  by_cases hg : (db.ucatalog.filter
      (fun v => decide (v.user_id = uid ∧ v.type = ty ∧ v.id = normalizeId id0))).length > 0
  · rw [if_pos hg] at h
    simp only [Option.some.injEq, Prod.mk.injEq] at h
    rw [← h.2]
    exact fun e he => Or.inl he
  · rw [if_neg hg] at h
    cases hfind : db.catalog.find?
        (fun c => decide (c.original_id = normalizeId id0 ∧ c.type = ty)) with
    | none =>
        rw [hfind] at h
        simp only [Option.some.injEq, Prod.mk.injEq] at h
        rw [← h.2]
        exact fun e he => Or.inl he
    | some dcat =>
        rw [hfind] at h
        cases hlex : get_lexicon uid db with
        | none =>
            rw [hlex] at h
            simp at h
        | some lex =>
            rw [hlex] at h
            simp only [Option.map_some', Option.some.injEq, Prod.mk.injEq] at h
            intro e he
            rw [← h.2] at he
            simp only [userListOf, findUlist] at he
            rw [findUlist_pushUlist] at he
            simp only [Option.getD_some] at he
            rw [userListOf, findUlist]
            rcases List.mem_append.mp he with h1 | h1
            · exact Or.inl h1
            · right
              rw [List.mem_singleton.mp h1]
              rfl

theorem C10_send (catalog : CatalogItem) (uc : UCat) (db : DB) :
    ∀ e ∈ userListOf uc.user_id (send_update_ucatalog catalog uc db).2,
      e ∈ userListOf uc.user_id db ∨ entryInv e := by
  intro e he
  simp only [send_update_ucatalog, userListOf, findUlist] at he ⊢
  rcases mem_userListOf_updateUlistEntry uc.user_id catalog.original_id catalog.type _ _ e he
    with h1 | ⟨e', h2, hf⟩
  · exact Or.inl h1
  · right
    rw [hf]
    rfl

theorem C10_toggle (uid : Int) (ty : String) (id0 : OId) (db : DB)
    (r : (String × String × Bool) × DB) (h : toggle_giveup uid ty id0 db = some r) :
    ∀ e ∈ userListOf uid r.2, e ∈ userListOf uid db ∨ entryInv e := by
  simp only [toggle_giveup] at h
  cases huc : get_ucatalog uid ty (normalizeId id0) db with
  | none => rw [huc] at h; simp at h
  | some uc =>
      rw [huc] at h
      cases hcat : findCatalog ty (normalizeId id0) db with
      | none => rw [hcat] at h; simp at h
      | some catalog =>
          rw [hcat] at h
          simp only [Option.some_bind, Option.bind_some, Option.map_some', Option.some.injEq] at h
          intro e he
          rw [← h] at he
          simp only [userListOf, findUlist] at he ⊢
          rcases mem_userListOf_updateUlistEntry uid (normalizeId id0) ty _ _ e he
            with h1 | ⟨e', h2, hf⟩
          · exact Or.inl h1
          · right
            rw [hf]
            rfl

theorem entryInv_text (e : UEntry) (t : String) :
    entryInv { e with text := t } ↔ entryInv e := Iff.rfl

theorem C10_setrank (uid : Int) (ty : String) (id0 : OId) (rank : String) (db : DB)
    (r : (String × String × Bool) × DB) (h : set_rank uid ty id0 rank db = some r) :
    ∀ e ∈ userListOf uid r.2, e ∈ userListOf uid db ∨ entryInv e ∨
      ∃ e', e' ∈ userListOf uid db ∧ e.checked = e'.checked ∧ e.status = e'.status := by
  simp only [set_rank] at h
  cases huc : get_ucatalog uid ty (normalizeId id0) db with
  | some uc =>
      rw [huc] at h
      simp only [Option.some_bind] at h
      cases hcat : findCatalog ty (normalizeId id0) (rankWrite uid ty (normalizeId id0) rank db) with
      | none => rw [hcat] at h; simp at h
      | some catalog =>
          rw [hcat] at h
          cases hlex : get_lexicon uid (rankWrite uid ty (normalizeId id0) rank db) with
          | none => rw [hlex] at h; simp at h
          | some lexicon =>
              rw [hlex] at h
              simp only [Option.some_bind, Option.map_some', Option.some.injEq] at h
              intro e he
              rw [← h] at he
              simp only [userListOf, findUlist] at he ⊢
              rcases mem_userListOf_updateUlistEntry uid (normalizeId id0) ty _ _ e he
                with h1 | ⟨e', h2, hf⟩
              · exact Or.inl h1
              · right; right
                exact ⟨e', h2, by rw [hf], by rw [hf]⟩
  | none =>
      rw [huc] at h
      simp only [Option.some_bind] at h
      cases hadd : add_ulist uid ty id0 db with
      | none => rw [hadd] at h; simp at h
      | some ra =>
          rw [hadd] at h
          simp only [Option.some_bind] at h
          cases huc2 : get_ucatalog uid ty (normalizeId id0) ra.2 with
          | none => rw [huc2] at h; simp at h
          | some uc =>
              rw [huc2] at h
              simp only [Option.some_bind, Option.bind_some, Option.map_some'] at h
              cases hcat : findCatalog ty (normalizeId id0)
                  (rankWrite uid ty (normalizeId id0) rank ra.2) with
              | none => rw [hcat] at h; simp at h
              | some catalog =>
                  rw [hcat] at h
                  cases hlex : get_lexicon uid (rankWrite uid ty (normalizeId id0) rank ra.2) with
                  | none => rw [hlex] at h; simp at h
                  | some lexicon =>
                      rw [hlex] at h
                      simp only [Option.some_bind, Option.map_some', Option.some.injEq] at h
                      intro e he
                      rw [← h] at he
                      simp only [userListOf, findUlist] at he ⊢
                      rcases mem_userListOf_updateUlistEntry uid (normalizeId id0) ty _ _ e he
                        with h1 | ⟨e', h2, hf⟩
                      · rcases C10_add uid ty id0 db ra.1 ra.2
                            (by rw [hadd]) e h1 with hA | hA
                        · exact Or.inl hA
                        · exact Or.inr (Or.inl hA)
                      · rcases C10_add uid ty id0 db ra.1 ra.2
                            (by rw [hadd]) e' h2 with hA | hA
                        · right; right
                          exact ⟨e', hA, by rw [hf], by rw [hf]⟩
                        · right; left
                          rw [hf]
                          exact (entryInv_text e' _).mpr hA

theorem get_ucatalog_user_id (uid : Int) (ty : String) (id : OId) (db : DB) (uc : UCat)
    (h : get_ucatalog uid ty id db = some uc) : uc.user_id = uid := by
  have := List.find?_some h
  exact (of_decide_eq_true this).1

theorem C10_update (uid : Int) (ty : String) (id0 : OId) (sn : String) (ch : Changes)
    (db : DB) (r : UpdRes × DB) (h : update_ucatalog uid ty id0 sn ch db = some r) :
    ∀ e ∈ userListOf uid r.2, e ∈ userListOf uid db ∨ entryInv e := by
  cases ch with
  | list l =>
      simp only [update_ucatalog] at h
      by_cases hv : l.any (fun s => !valid_format_ucatalalog s)
      · rw [if_pos hv] at h
        simp only [Option.some.injEq] at h
        rw [← h]
        exact fun e he => Or.inl he
      · rw [if_neg hv] at h
        cases huc : get_ucatalog uid ty (normalizeId id0) db with
        | some uc =>
            rw [huc] at h
            simp only [Option.some_bind] at h
            cases hN : (if ty = "tv" ∨ ty = "books" then
                match uc.watch with
                | WatchData.series ws =>
                    some { uc with watch := WatchData.series (setSeasonWatched sn l ws) }
                | _ => none
              else some { uc with watch := WatchData.tokens l }) with
            | none => rw [hN] at h; simp at h
            | some ucN =>
                rw [hN] at h
                simp only [Option.some_bind] at h
                cases hcat : findCatalog ty (normalizeId id0) db with
                | none => rw [hcat] at h; simp at h
                | some catalog =>
                    rw [hcat] at h
                    simp only [Option.map_some', Option.some.injEq] at h
                    intro e he
                    rw [← h] at he
                    have huser : ucN.user_id = uid := by
                      have h1 := get_ucatalog_user_id uid ty (normalizeId id0) db uc huc
                      by_cases ht : ty = "tv" ∨ ty = "books"
                      · rw [if_pos ht] at hN
                        cases hw : uc.watch with
                        | series ws => rw [hw] at hN; simp at hN; rw [← hN]; exact h1
                        | single b => rw [hw] at hN; simp at hN
                        | tokens t => rw [hw] at hN; simp at hN
                      · rw [if_neg ht] at hN
                        simp at hN
                        rw [← hN]
                        exact h1
                    rw [← huser] at he ⊢
                    exact C10_send catalog ucN db e he
        | none =>
            rw [huc] at h
            simp only [Option.some_bind] at h
            cases hadd : add_ulist uid ty id0 db with
            | none => rw [hadd] at h; simp at h
            | some ra =>
                rw [hadd] at h
                simp only [Option.some_bind] at h
                cases huc2 : get_ucatalog uid ty (normalizeId id0) ra.2 with
                | none => rw [huc2] at h; simp at h
                | some uc =>
                    rw [huc2] at h
                    simp only [Option.map_some', Option.some_bind] at h
                    cases hN : (if ty = "tv" ∨ ty = "books" then
                        match uc.watch with
                        | WatchData.series ws =>
                            some { uc with watch := WatchData.series (setSeasonWatched sn l ws) }
                        | _ => none
                      else some { uc with watch := WatchData.tokens l }) with
                    | none => rw [hN] at h; simp at h
                    | some ucN =>
                        rw [hN] at h
                        simp only [Option.some_bind] at h
                        cases hcat : findCatalog ty (normalizeId id0) ra.2 with
                        | none => rw [hcat] at h; simp at h
                        | some catalog =>
                            rw [hcat] at h
                            simp only [Option.map_some', Option.some.injEq] at h
                            intro e he
                            rw [← h] at he
                            have huser : ucN.user_id = uid := by
                              have h1 := get_ucatalog_user_id uid ty (normalizeId id0) ra.2 uc huc2
                              by_cases ht : ty = "tv" ∨ ty = "books"
                              · rw [if_pos ht] at hN
                                cases hw : uc.watch with
                                | series ws => rw [hw] at hN; simp at hN; rw [← hN]; exact h1
                                | single b => rw [hw] at hN; simp at hN
                                | tokens t => rw [hw] at hN; simp at hN
                              · rw [if_neg ht] at hN
                                simp at hN
                                rw [← hN]
                                exact h1
                            rw [← huser] at he
                            have hsend := C10_send catalog ucN ra.2 e he
                            rw [huser] at hsend
                            rcases hsend with h1 | h1
                            · exact C10_add uid ty id0 db ra.1 ra.2 (by rw [hadd]) e h1
                            · exact Or.inr h1
  | bool b =>
      simp only [update_ucatalog] at h
      cases huc : get_ucatalog uid ty (normalizeId id0) db with
      | some uc =>
          rw [huc] at h
          simp only [Option.some_bind] at h
          by_cases ht : ty = "tv" ∨ ty = "books"
          · rw [if_pos ht] at h
            simp at h
          · rw [if_neg ht] at h
            simp only [Option.some_bind] at h
            cases hcat : findCatalog ty (normalizeId id0) db with
            | none => rw [hcat] at h; simp at h
            | some catalog =>
                rw [hcat] at h
                simp only [Option.map_some', Option.some.injEq] at h
                intro e he
                rw [← h] at he
                have huser : uc.user_id = uid :=
                  get_ucatalog_user_id uid ty (normalizeId id0) db uc huc
                have hsend := C10_send catalog { uc with watch := WatchData.single b } db e
                  (by rw [huser] at he ⊢; exact he)
                rw [huser] at hsend
                exact hsend
      | none =>
          rw [huc] at h
          simp only [Option.some_bind] at h
          cases hadd : add_ulist uid ty id0 db with
          | none => rw [hadd] at h; simp at h
          | some ra =>
              rw [hadd] at h
              simp only [Option.some_bind] at h
              cases huc2 : get_ucatalog uid ty (normalizeId id0) ra.2 with
              | none => rw [huc2] at h; simp at h
              | some uc =>
                  rw [huc2] at h
                  simp only [Option.map_some', Option.some_bind] at h
                  by_cases ht : ty = "tv" ∨ ty = "books"
                  · rw [if_pos ht] at h
                    simp at h
                  · rw [if_neg ht] at h
                    simp only [Option.some_bind] at h
                    cases hcat : findCatalog ty (normalizeId id0) ra.2 with
                    | none => rw [hcat] at h; simp at h
                    | some catalog =>
                        rw [hcat] at h
                        simp only [Option.map_some', Option.some.injEq] at h
                        intro e he
                        rw [← h] at he
                        have huser : uc.user_id = uid :=
                          get_ucatalog_user_id uid ty (normalizeId id0) ra.2 uc huc2
                        have hsend := C10_send catalog { uc with watch := WatchData.single b }
                          ra.2 e (by rw [huser] at he ⊢; exact he)
                        rw [huser] at hsend
                        rcases hsend with h1 | h1
                        · exact C10_add uid ty id0 db ra.1 ra.2 (by rw [hadd]) e h1
                        · exact Or.inr h1

theorem takeWhile_append_cons (p : Char → Bool) (a : List Char) (x : Char) (b : List Char)
    (ha : a.all p = true) (hx : p x = false) :
    (a ++ x :: b).takeWhile p = a ∧ (a ++ x :: b).dropWhile p = x :: b := by
  induction a with
  | nil => simp [List.takeWhile, List.dropWhile, hx]
  | cons c cs ih =>
      simp only [List.all_cons, Bool.and_eq_true] at ha
      have := ih ha.2
      simp [List.takeWhile, List.dropWhile, ha.1, this.1, this.2]

theorem validFmtL_iff (l : List Char) : validFmtL l = true ↔ claimC2_valid l := by
  constructor
  · intro h
    unfold validFmtL at h
    by_cases h1 : l.takeWhile Char.isDigit = []
    · simp [h1] at h
    · rw [if_neg h1] at h
      have hsplit := List.takeWhile_append_dropWhile Char.isDigit l
      split at h
      next heq =>
        left
        rw [heq, List.append_nil] at hsplit
        exact ⟨by rw [← hsplit]; exact h1, by rw [← hsplit]; exact List.all_takeWhile⟩
      next d2 heq =>
        right
        by_cases h2 : d2 ≠ [] ∧ d2.all Char.isDigit = true
        · rw [if_pos h2] at h
          refine ⟨l.takeWhile Char.isDigit, d2, ?_, h1, h2.1, List.all_takeWhile, h2.2,
            of_decide_eq_true h⟩
          rw [← heq]
          exact hsplit.symm
        · rw [if_neg h2] at h
          exact absurd h (by simp)
      next x heq hne =>
        exact absurd h (by simp)
  · intro h
    unfold validFmtL
    rcases h with ⟨hne, hall⟩ | ⟨a, b, hl, ha, hb, haall, hball, hlt⟩
    · rw [List.takeWhile_eq_self_iff.mpr (List.all_eq_true.mp hall)]
      rw [if_neg hne]
      have hdrop : l.dropWhile Char.isDigit = [] :=
        List.dropWhile_eq_nil_iff.mpr (fun x hx => List.all_eq_true.mp hall x hx)
      rw [hdrop]
    · subst hl
      have hdash : Char.isDigit '-' = false := by decide
      have hp := takeWhile_append_cons Char.isDigit a '-' b haall hdash
      rw [hp.1, hp.2, if_neg ha]
      show (if b ≠ [] ∧ b.all Char.isDigit = true then decide (digitsToNat a < digitsToNat b)
        else false) = true
      rw [if_pos ⟨hb, hball⟩]
      exact decide_eq_true hlt

theorem claimComplete_penalty (s : CSeason) (p : Bool) (hp : unitPenalty s = some p) :
    claimComplete s none = !p := by
  unfold unitPenalty at hp
  by_cases h0 : s.contents.length > 0
  · rw [if_pos h0] at hp
    obtain ⟨f, hf, hfp⟩ := Option.map_eq_some'.mp hp
    rw [← hfp]
    simp only [claimComplete, hf]
    have h1 : decide (s.contents.length ≥ 1) = true := by simpa using h0
    rw [h1]
    cases f <;> cases decide (s.contents.length > 1) <;> rfl
  · rw [if_neg h0] at hp
    have hlen : s.contents.length = 0 := by omega
    have hpf : p = false := by
      have := Option.some.inj hp
      rw [← this]
    simp [claimComplete, hpf, hlen]

theorem findUElement_mem (tv : Bool) (ws : List SeasonWatch) (s : CSeason) (e : SeasonWatch)
    (h : findUElement tv ws s = some e) : e ∈ ws := by
  unfold findUElement at h
  by_cases htv : tv = true
  · rw [if_pos htv] at h
    exact List.mem_of_find?_eq_some h
  · rw [if_neg htv] at h
    exact List.mem_of_mem_head? h

theorem statusStepE_spec (tv : Bool) (ws : List SeasonWatch) (ov : Bool) (s : CSeason)
    (st st' : Bool × Bool) (h : ∀ e ∈ ws, e.watched.length ≤ 1)
    (hskip : ¬(tv = true ∧ s.season_number = 0 ∧ ov = true))
    (hstep : statusStepE tv ws ov st s = some st') :
    st' = (st.1 && claimComplete s (findUElement tv ws s),
           st.2 || claimStarted (findUElement tv ws s)) := by
  cases hfe : findUElement tv ws s with
  | none =>
      have hred : statusStepE tv ws ov st s =
          (unitPenalty s).map (fun p => (st.1 && !p, st.2)) := by
        unfold statusStepE
        rw [if_neg hskip, hfe]
      rw [hred] at hstep
      obtain ⟨p, hp, hmap⟩ := Option.map_eq_some'.mp hstep
      rw [← hmap, claimComplete_penalty s p hp]
      simp [claimStarted]
  | some e =>
      have hred : statusStepE tv ws ov st s =
          (if e.watched.length = 1 then
            some (if upperOf (e.watched.headD "") ≠ s.contents.length then false else st.1,
                  st.2 || decide (e.watched.length > 0))
          else (unitPenalty s).map
            (fun p => (st.1 && !p, st.2 || decide (e.watched.length > 0)))) := by
        unfold statusStepE
        rw [if_neg hskip, hfe]
      rw [hred] at hstep
      have hlen := h e (findUElement_mem tv ws s e hfe)
      cases hw : e.watched with
      | nil =>
          have hcc : claimComplete s (some e) = claimComplete s none := by
            simp [claimComplete, hw]
          have hcs : claimStarted (some e) = false := by simp [claimStarted, hw]
          rw [hw] at hstep
          simp only [List.length_nil] at hstep
          rw [if_neg (by norm_num)] at hstep
          obtain ⟨p, hp, hmap⟩ := Option.map_eq_some'.mp hstep
          rw [← hmap, hcc, claimComplete_penalty s p hp, hcs]
          simp
      | cons x xs =>
          have hxs : xs = [] := by
            rw [hw] at hlen
            simpa using hlen
          subst hxs
          have hcs : claimStarted (some e) = true := by simp [claimStarted, hw]
          have hcc : claimComplete s (some e) =
              decide (upperOf (e.watched.headD "") = s.contents.length) := by
            simp [claimComplete, hw]
          rw [hw] at hstep
          simp only [List.length_cons, List.length_nil] at hstep
          rw [if_pos (by norm_num)] at hstep
          have heq := Option.some.inj hstep
          rw [← heq, hcs, hcc, hw]
          by_cases hu : upperOf (([x] : List String).headD "") ≠ s.contents.length
          · simp [hu, Bool.and_comm]
          · push_neg at hu
            simp [hu, Bool.and_comm]

theorem foldlM_statusStepE (tv ov : Bool) (ws : List SeasonWatch)
    (h : ∀ e ∈ ws, e.watched.length ≤ 1) :
    ∀ (l : List CSeason) (a b : Bool) (out : Bool × Bool),
    l.foldlM (statusStepE tv ws ov) (a, b) = some out →
    out = (a && (l.filter (fun s => !(tv && decide (s.season_number = 0) && ov))).all
        (fun s => claimComplete s (findUElement tv ws s)),
      b || (l.filter (fun s => !(tv && decide (s.season_number = 0) && ov))).any
        (fun s => claimStarted (findUElement tv ws s)))
  | [], a, b, out, hout => by
      have h2 : (a, b) = out := Option.some.inj hout
      rw [← h2]
      cases a <;> cases b <;> rfl
  | s :: rest, a, b, out, hout => by
      rw [List.foldlM_cons] at hout
      cases hst1 : statusStepE tv ws ov (a, b) s with
      | none =>
          rw [hst1] at hout
          simp at hout
      | some st1 =>
          rw [hst1] at hout
          simp only [Option.bind_eq_bind, Option.some_bind] at hout
          by_cases hs : tv = true ∧ s.season_number = 0 ∧ ov = true
          · have hstep : statusStepE tv ws ov (a, b) s = some (a, b) := by
              unfold statusStepE
              rw [if_pos hs]
            have hst1e : st1 = (a, b) := by
              rw [hstep] at hst1
              exact (Option.some.inj hst1).symm
            subst hst1e
            have hf : (!(tv && decide (s.season_number = 0) && ov)) = false := by
              simp [hs.1, hs.2.1, hs.2.2]
            have hfc : List.filter
                (fun x : CSeason => !(tv && decide (x.season_number = 0) && ov)) (s :: rest) =
                List.filter (fun x : CSeason => !(tv && decide (x.season_number = 0) && ov)) rest := by
              rw [List.filter_cons]
              simp only [hf, Bool.false_eq_true, if_false]
            rw [hfc]
            exact foldlM_statusStepE tv ov ws h rest a b out hout
          · have hsp := statusStepE_spec tv ws ov s (a, b) st1 h hs hst1
            rw [hsp] at hout
            have hrec := foldlM_statusStepE tv ov ws h rest
              (a && claimComplete s (findUElement tv ws s))
              (b || claimStarted (findUElement tv ws s)) out hout
            have hf : (!(tv && decide (s.season_number = 0) && ov)) = true := by
              cases tv <;> cases ov <;> by_cases h0 : s.season_number = 0 <;> simp_all
            have hfc : List.filter
                (fun x : CSeason => !(tv && decide (x.season_number = 0) && ov)) (s :: rest) =
                s :: List.filter (fun x : CSeason => !(tv && decide (x.season_number = 0) && ov)) rest := by
              rw [List.filter_cons]
              simp only [hf, if_true]
            rw [hfc, List.all_cons, List.any_cons, hrec]
            exact congrArg₂ Prod.mk (Bool.and_assoc a _ _) (Bool.or_assoc b _ _)

theorem C1_main (c : CatalogItem) (uc : UCat) (ig : Bool) (sr : SettingsR) (st : String)
    (hty : c.type = "tv" ∨ c.type = "books") (hst : uc.status ≠ "giveup")
    (h : ∀ e ∈ seasonsOf uc.watch, e.watched.length ≤ 1)
    (hrun : get_statusE c uc ig sr = some st) :
    st = claimC1_status c (seasonsOf uc.watch) (sr.ignoreOvers.getD true) := by
  unfold get_statusE at hrun
  rw [if_neg (fun hcon => hst hcon.1), if_pos hty] at hrun
  obtain ⟨fs, hfs, hmap⟩ := Option.map_eq_some'.mp hrun
  have hfold := foldlM_statusStepE (decide (c.type = "tv")) (sr.ignoreOvers.getD true)
    (seasonsOf uc.watch) h c.contents true false fs hfs
  unfold claimC1_status claimUnits
  rw [← hmap, hfold]
  simp only [Bool.true_and, Bool.false_or]

theorem C7_draft :
    (∀ (c : CatalogItem) (uc : UCat) (sr : SettingsR),
      uc.status = "giveup" → get_status c uc false sr = "giveup") ∧
    (∀ (c : CatalogItem) (uc : UCat) (s1 s2 : String) (sr : SettingsR),
      get_status c { uc with status := s1 } true sr =
        get_status c { uc with status := s2 } true sr) ∧
    (∀ (c : CatalogItem) (uc : UCat) (sr : SettingsR),
      get_status c uc true sr = get_status c { uc with status := "towatch" } false sr) := by
  refine ⟨?_, ?_, ?_⟩
  · intro c uc sr hst
    unfold get_status get_statusE
    rw [if_pos ⟨hst, by simp⟩]
    simp [hst]
  · intro c uc s1 s2 sr
    have hg : ∀ u : UCat, ¬(u.status = "giveup" ∧ ¬(true : Bool)) := by simp
    unfold get_status get_statusE
    rw [if_neg (hg { uc with status := s1 }), if_neg (hg { uc with status := s2 })]
  · intro c uc sr
    have hg : ¬(uc.status = "giveup" ∧ ¬(true : Bool)) := by simp
    have h2 : ¬(({ uc with status := "towatch" } : UCat).status = "giveup" ∧
        ¬(false : Bool)) := by simp
    unfold get_status get_statusE
    rw [if_neg hg, if_neg h2]

/-- Claim C1 (amended): for a tv or bookSeries item whose stored status is
not abandoned, whenever the engine returns a status at all (`get_statusE`
is `some`, in particular for every tv item, whose seasons carry the
`finished` key), the result follows the spec's unit-by-unit rule: an
absent or empty progress entry forces completion false exactly when the
unit has more than one element or (at least one element and is marked
fully released); a non-empty watched range marks the unit started and
counts it complete exactly when its upper bound equals the unit's content
count; the result is done / in-progress / to-consume accordingly, skipping
season 0 for tv when ignore-overs is on.  A bookSeries tome group carries
no `finished` key, and the penalty test reads it whenever the tome list is
non-empty, so the engine raises KeyError there instead of computing the
claimed rule: `claimC1_counterexample`. -/
theorem claimC1 (c : CatalogItem) (uc : UCat) (ig : Bool) (sr : SettingsR) (st : String)
    (hty : c.type = "tv" ∨ c.type = "books") (hst : uc.status ≠ "giveup")
    (h : ∀ e ∈ seasonsOf uc.watch, e.watched.length ≤ 1)
    (hrun : get_statusE c uc ig sr = some st) :
    st = claimC1_status c (seasonsOf uc.watch) (sr.ignoreOvers.getD true) ∧
    get_status c uc ig sr = st :=
  ⟨C1_main c uc ig sr st hty hst h hrun, by unfold get_status; rw [hrun]; rfl⟩

/-- Witness for C1 at a concrete tv item with an over, a finished season
and an untouched unfinished season. -/
theorem claimC1_witness :
    ((cW1.type = "tv" ∨ cW1.type = "books") ∧ ucW1.status ≠ "giveup" ∧
      (∀ e ∈ seasonsOf ucW1.watch, e.watched.length ≤ 1) ∧
      get_statusE cW1 ucW1 false srW1 = some "done") ∧
    "done" = claimC1_status cW1 (seasonsOf ucW1.watch) (srW1.ignoreOvers.getD true) ∧
    get_status cW1 ucW1 false srW1 = "done" :=
  ⟨⟨Or.inl rfl, by decide, by decide, by decide⟩,
   claimC1 cW1 ucW1 false srW1 "done" (Or.inl rfl) (by decide) (by decide) (by decide)⟩

/-- Counterexample to C1 as stated: on a bookSeries item whose tome group
has tomes but no progress entry, the engine hits the penalty test's read
of the absent `finished` key and raises (modelled `none`) instead of
returning the claimed to-consume status. -/
theorem claimC1_counterexample :
    cB.type = "books" ∧ ucB.status ≠ "giveup" ∧
    (∃ s ∈ cB.contents, s.finished = none ∧ s.contents ≠ []) ∧
    get_statusE cB ucB false srW1 = none :=
  ⟨rfl, by decide, by decide, by decide⟩

theorem claimC2_no_newline (l : List Char) (h : claimC2_valid l) :
    l.getLast? ≠ some '\n' := by
  intro hl
  have hne : l ≠ [] := by
    rintro rfl
    simp at hl
  have hg : l.getLast hne = '\n' := by
    have hgl := List.getLast?_eq_getLast l hne
    rw [hgl] at hl
    exact Option.some.inj hl
  have hmem : '\n' ∈ l := hg ▸ List.getLast_mem hne
  rcases h with ⟨hne2, hall⟩ | ⟨a, b, hl2, ha, hb, haall, hball, hlt⟩
  · exact absurd (List.all_eq_true.mp hall '\n' hmem) (by decide)
  · subst hl2
    rcases List.mem_append.mp hmem with hm | hm
    · exact absurd (List.all_eq_true.mp haall _ hm) (by decide)
    · rcases List.mem_cons.mp hm with hm1 | hm2
      · exact absurd hm1 (by decide)
      · exact absurd (List.all_eq_true.mp hball _ hm2) (by decide)

theorem validFmt_strip_iff (l : List Char) :
    validFmtL (stripNL l) = true ↔
      ∃ core, (l = core ∨ l = core ++ ['\n']) ∧ claimC2_valid core := by
  constructor
  · intro h
    refine ⟨stripNL l, ?_, (validFmtL_iff _).mp h⟩
    unfold stripNL
    by_cases hl : l.getLast? = some '\n'
    · rw [if_pos hl]
      right
      have hne : l ≠ [] := by
        rintro rfl
        simp at hl
      have hg : l.getLast hne = '\n' := by
        have hgl := List.getLast?_eq_getLast l hne
        rw [hgl] at hl
        exact Option.some.inj hl
      rw [← hg]
      exact (List.dropLast_append_getLast hne).symm
    · rw [if_neg hl]
      exact Or.inl rfl
  · rintro ⟨core, hcore, hv⟩
    have hnl : core.getLast? ≠ some '\n' := claimC2_no_newline core hv
    rcases hcore with h1 | h1
    · rw [h1]
      unfold stripNL
      rw [if_neg hnl]
      exact (validFmtL_iff core).mpr hv
    · rw [h1]
      unfold stripNL
      rw [if_pos (List.getLast?_concat core), List.dropLast_concat]
      exact (validFmtL_iff core).mpr hv

/-- Claim C2 (amended): the validator accepts exactly the strings of the
spec's grammar — a non-empty digit string, or two non-empty digit strings
joined by a dash with the right part strictly larger — *optionally followed
by one trailing newline*, which Python's `$` lets the regex skip
(`claimC2_counterexample`: `"5\n"` is valid to the program).  The spec's
five example tokens behave as stated. -/
theorem claimC2 :
    (∀ s : String, valid_format_ucatalalog s = true ↔
      ∃ core, (s.data = core ∨ s.data = core ++ ['\n']) ∧ claimC2_valid core) ∧
    valid_format_ucatalalog "5" = true ∧ valid_format_ucatalalog "1-4" = true ∧
    valid_format_ucatalalog "4-1" = false ∧ valid_format_ucatalalog "1-1" = false ∧
    valid_format_ucatalalog "a-1" = false :=
  ⟨fun s => validFmt_strip_iff s.data, by decide, by decide, by decide, by decide, by decide⟩

/-- Counterexample to C2 as stated: `"5\n"` is not of the spec's grammar
(it contains a non-digit), yet the program's validator accepts it — `$`
matches before the trailing newline. -/
theorem claimC2_counterexample :
    valid_format_ucatalalog "5\n" = true ∧ ¬ claimC2_valid ("5\n".data) :=
  ⟨by decide, fun h => claimC2_no_newline _ h (by decide)⟩

/-- Claim C3 (amended): a render call neither mutates its inputs nor
changes its output on re-rendering provided the OnEpisode branch does not
rewrite the record — the item is not tv, or there is no progress record,
or every enabled-OnEpisode pass finds the last started entry with a
non-empty watched list (in particular when the OnEpisode hook is disabled).
Outside these conditions the renderer writes into the progress record,
`claimC3_counterexample`. -/
theorem claimC3 (c : CatalogItem) (uc : Option UCat) (lex : Lexicon)
    (h : c.type ≠ "tv" ∨ uc = none ∨
      (∃ u ws, uc = some u ∧ u.watch = WatchData.series ws ∧
        (enabledL lex.onEpisode = [] ∨
          (ws ≠ [] ∧ ∃ e, ws.get? (lastStartedIdx ws) = some e ∧ e.watched ≠ [])))) :
    (get_ulist_text c uc lex).2 = uc ∧
    (get_ulist_text c (get_ulist_text c uc lex).2 lex).1 = (get_ulist_text c uc lex).1 :=
  C3_draft c uc lex h

/-- Witness for C3 at a concrete movie render. -/
theorem claimC3_witness :
    (cW3.type ≠ "tv" ∨ (some ucW3 : Option UCat) = none ∨
      (∃ u ws, (some ucW3 : Option UCat) = some u ∧ u.watch = WatchData.series ws ∧
        (enabledL default_lexicon.onEpisode = [] ∨
          (ws ≠ [] ∧ ∃ e, ws.get? (lastStartedIdx ws) = some e ∧ e.watched ≠ [])))) ∧
    (get_ulist_text cW3 (some ucW3) default_lexicon).2 = some ucW3 ∧
    (get_ulist_text cW3 (get_ulist_text cW3 (some ucW3) default_lexicon).2 default_lexicon).1 =
      (get_ulist_text cW3 (some ucW3) default_lexicon).1 :=
  ⟨Or.inl (by decide),
   claimC3 cW3 (some ucW3) default_lexicon (Or.inl (by decide))⟩

/-- Counterexample to C3 as stated: rendering a tv item whose last started
watch entry has an empty watched list writes `["0"]` into that entry —
the render call returns a progress record different from the one given. -/
theorem claimC3_counterexample :
    (get_ulist_text cC3 (some ucC3) default_lexicon).2 =
      some ⟨1, "tv", OId.num 3, WatchData.series [⟨some "1", ["0"]⟩], some "", "onwatch"⟩ ∧
    (get_ulist_text cC3 (some ucC3) default_lexicon).2 ≠ some ucC3 :=
  ⟨by decide, by decide⟩

/-- Claim C4: `hard_reload` is idempotent — the state and list a run
returns are returned unchanged by a second run — and on a state whose
statuses and cached texts already agree with the catalog (no drift), a
single run queues zero status writes and leaves the state and the cached
list exactly as they were. -/
theorem claimC4 :
    (∀ (uid : Int) (db : DB) (out : DB × List UEntry),
      hard_reload uid db = some out → hard_reload uid out.1 = some out) ∧
    (∀ (uid : Int) (db : DB) (doc : Int × List UEntry),
      db.ulist.find? (fun p => decide (p.1 = uid)) = some doc →
      (∀ r ∈ hrResults uid (resultPairs doc.2) db,
        get_status r.2 r.1 false (get_settings uid db) = r.1.status) →
      (hrOut uid db doc.2).2 = doc.2 →
      hard_reload_core uid db = some ([], db, doc.2)) :=
  ⟨C4_part1, C4_part2⟩

/-- Claim C5 (amended): an update whose token list holds a token the
program's validator rejects returns the error result and the state
unchanged.  The guard is `valid_format_ucatalalog` with its
trailing-newline acceptance, so a token such as `"5\n"` — malformed under
the spec's grammar — passes the guard and the update writes:
`claimC5_counterexample`. -/
theorem claimC5 (uid : Int) (ty : String) (id0 : OId) (sn : String) (l : List String) (db : DB)
    (h : ∃ t ∈ l, valid_format_ucatalalog t = false) :
    update_ucatalog uid ty id0 sn (Changes.list l) db = some (UpdRes.error, db) :=
  C5_draft uid ty id0 sn l db h

/-- Witness for C5 at the spec's own example token `"0-0"`. -/
theorem claimC5_witness :
    (∃ t ∈ (["0-0"] : List String), valid_format_ucatalalog t = false) ∧
    update_ucatalog 1 "movie" (OId.num 2) "1" (Changes.list ["0-0"]) dbW5 =
      some (UpdRes.error, dbW5) :=
  ⟨by decide, claimC5 1 "movie" (OId.num 2) "1" ["0-0"] dbW5 (by decide)⟩

/-- Counterexample to C5 as stated: the token `"5\n"` is outside the
spec's range grammar, yet the program validates it (`$` before the
trailing newline), proceeds, and writes — the call returns a non-error
result and a changed state. -/
theorem claimC5_counterexample :
    (¬ claimC2_valid ("5\n".data)) ∧ valid_format_ucatalalog "5\n" = true ∧
    ∃ r, update_ucatalog 1 "movie" (OId.num 2) "1" (Changes.list ["5\n"]) dbW5 = some r ∧
      r.1 ≠ UpdRes.error ∧ r.2 ≠ dbW5 := by
  refine ⟨fun h => claimC2_no_newline _ h (by decide), by decide,
    (update_ucatalog 1 "movie" (OId.num 2) "1" (Changes.list ["5\n"]) dbW5).get (by decide),
    ?_, by decide, by decide⟩
  exact (Option.some_get (by decide)).symm

/-- Claim C6: `add_ulist` reports the item already tracked when a matching
progress record exists (so a second identical call fails and the cached
list gains exactly one entry overall), reports not-found when no catalog
document matches, and otherwise appends a fresh progress record with empty
watch state and status to-consume, caches the no-progress preview render
as the entry text, and appends exactly one cached-list entry. -/
theorem claimC6 :
    (∀ (uid : Int) (ty : String) (id0 : OId) (db : DB) (u : UCat),
      u ∈ db.ucatalog → u.user_id = uid → u.type = ty → u.id = normalizeId id0 →
      add_ulist uid ty id0 db = some (AddRes.alreadyTracked, db)) ∧
    (∀ (uid : Int) (ty : String) (id0 : OId) (db : DB),
      (∀ u ∈ db.ucatalog, ¬(u.user_id = uid ∧ u.type = ty ∧ u.id = normalizeId id0)) →
      (∀ c ∈ db.catalog, ¬(c.original_id = normalizeId id0 ∧ c.type = ty)) →
      add_ulist uid ty id0 db = some (AddRes.notFound, db)) ∧
    (∀ (uid : Int) (ty : String) (id0 : OId) (db : DB) (cat : CatalogItem) (lex : Lexicon),
      (∀ u ∈ db.ucatalog, ¬(u.user_id = uid ∧ u.type = ty ∧ u.id = normalizeId id0)) →
      db.catalog.find?
        (fun c => decide (c.original_id = normalizeId id0 ∧ c.type = ty)) = some cat →
      get_lexicon uid db = some lex →
      ∃ db1,
        add_ulist uid ty id0 db =
          some (AddRes.ok (get_ulist_text cat none lex).1 ty (normalizeId id0), db1) ∧
        db1.ucatalog = db.ucatalog ++
          [⟨uid, ty, normalizeId id0, WatchData.series [], some "", "towatch"⟩] ∧
        findUlist uid db1 = some ((findUlist uid db).getD [] ++
          [⟨cat.original_id, cat.type, (get_ulist_text cat none lex).1, false, "towatch"⟩]) ∧
        db1.catalog = db.catalog ∧ db1.settings = db.settings ∧
        ((findUlist uid db1).getD []).countP
            (fun e => decide (e.id = cat.original_id ∧ e.type = cat.type)) =
          ((findUlist uid db).getD []).countP
            (fun e => decide (e.id = cat.original_id ∧ e.type = cat.type)) + 1) ∧
    (∀ (uid : Int) (ty : String) (id0 : OId) (db : DB) (t rty : String) (rid : OId) (db1 : DB),
      add_ulist uid ty id0 db = some (AddRes.ok t rty rid, db1) →
      add_ulist uid ty id0 db1 = some (AddRes.alreadyTracked, db1)) :=
  ⟨C6_part1, C6_part2, C6_part3, C6_part4⟩

/-- Claim C7: with the stored status abandoned, the engine short-circuits
to abandoned when `ignore_giveup` is false; with `ignore_giveup` true the
stored status is irrelevant and the result equals a recomputation from the
watch data alone. -/
theorem claimC7 :
    (∀ (c : CatalogItem) (uc : UCat) (sr : SettingsR),
      uc.status = "giveup" → get_status c uc false sr = "giveup") ∧
    (∀ (c : CatalogItem) (uc : UCat) (s1 s2 : String) (sr : SettingsR),
      get_status c { uc with status := s1 } true sr =
        get_status c { uc with status := s2 } true sr) ∧
    (∀ (c : CatalogItem) (uc : UCat) (sr : SettingsR),
      get_status c uc true sr = get_status c { uc with status := "towatch" } false sr) :=
  C7_draft

/-- Claim C8 (amended): for tv with progress, every enabled started-season
template emits a fragment for every watch entry with a non-empty watched
range; the finished-season fragments, however, compare each watch entry's
range against the episode count of the catalog unit at the entry's *list
position* (`contents[index]`), so they match the spec's per-season rule
exactly when the watch list is aligned with the catalog's season order —
the `halign` hypothesis; `claimC8_counterexample` shows a misaligned,
fully-watched season emitting nothing. -/
theorem claimC8 (c : CatalogItem) (u : UCat) (ws : List SeasonWatch) (lex : Lexicon)
    (hty : c.type = "tv") (hw : u.watch = WatchData.series ws)
    (halign : ∀ idx j, ws.get? idx = some j →
      ∃ s, c.contents.get? idx = some s ∧ j.season_number = some (toString s.season_number)) :
    (∀ i ∈ enabledL lex.onStartedSeason, ∀ j ∈ ws, j.watched ≠ [] →
      (⟨pyFormat1 i.text (j.season_number.getD ""), i.position⟩ : Frag) ∈
        startedSeasonFrags c (some u) lex) ∧
    finishSeasonFrags c (some u) lex =
      (enabledL lex.onFinishSeason).flatMap (fun i =>
        (ws.zip c.contents).filterMap (fun q =>
          if q.1.watched.length = 1 ∧
              pySplitDash (q.1.watched.headD "") = ["1", toString q.2.contents.length] then
            some (⟨pyFormat1 i.text (toString q.2.season_number), i.position⟩ : Frag)
          else none)) :=
  C8_draft c u ws lex hty hw halign

/-- Witness for C8 at an aligned one-season record. -/
theorem claimC8_witness :
    (cW8.type = "tv" ∧ ucW8.watch = WatchData.series wsW8 ∧
      (∀ idx j, wsW8.get? idx = some j →
        ∃ s, cW8.contents.get? idx = some s ∧
          j.season_number = some (toString s.season_number))) ∧
    (∀ i ∈ enabledL lexC8.onStartedSeason, ∀ j ∈ wsW8, j.watched ≠ [] →
      (⟨pyFormat1 i.text (j.season_number.getD ""), i.position⟩ : Frag) ∈
        startedSeasonFrags cW8 (some ucW8) lexC8) ∧
    finishSeasonFrags cW8 (some ucW8) lexC8 =
      (enabledL lexC8.onFinishSeason).flatMap (fun i =>
        (wsW8.zip cW8.contents).filterMap (fun q =>
          if q.1.watched.length = 1 ∧
              pySplitDash (q.1.watched.headD "") = ["1", toString q.2.contents.length] then
            some (⟨pyFormat1 i.text (toString q.2.season_number), i.position⟩ : Frag)
          else none)) :=
  ⟨⟨rfl, rfl, fun idx j hj => by
      match idx, hj with
      | 0, hj =>
          refine ⟨⟨1, ["a", "b"], some true⟩, rfl, ?_⟩
          have hje : j = ⟨some "1", ["1-2"]⟩ := by
            have : some (⟨some "1", ["1-2"]⟩ : SeasonWatch) = some j := hj
            exact (Option.some.inj this).symm
          rw [hje]
          decide
      | n + 1, hj => exact absurd hj (by simp [wsW8])⟩,
   claimC8 cW8 ucW8 wsW8 lexC8 rfl rfl (fun idx j hj => by
      match idx, hj with
      | 0, hj =>
          refine ⟨⟨1, ["a", "b"], some true⟩, rfl, ?_⟩
          have hje : j = ⟨some "1", ["1-2"]⟩ := by
            have : some (⟨some "1", ["1-2"]⟩ : SeasonWatch) = some j := hj
            exact (Option.some.inj this).symm
          rw [hje]
          decide
      | n + 1, hj => exact absurd hj (by simp [wsW8]))⟩

/-- Counterexample to C8 as stated: the only watch entry fully covers
season 2 (`"1-3"` against its three episodes), the finished-season hook is
enabled, yet no finished-season fragment is emitted — the entry sits at
list position 0 and is tested against season 1's episode count. -/
theorem claimC8_counterexample :
    (∃ s ∈ cC8.contents, ∃ j ∈ seasonsOf ucC8.watch,
      j.season_number = some (toString s.season_number) ∧ j.watched.length = 1 ∧
      pySplitDash (j.watched.headD "") = ["1", toString s.contents.length]) ∧
    enabledL lexC8.onFinishSeason ≠ [] ∧ cC8.type = "tv" ∧
    finishSeasonFrags cC8 (some ucC8) lexC8 = [] :=
  ⟨by decide, by decide, rfl, by decide⟩

/-- Claim C9 (amended): `get_tierlist` is a pure read of the state and
groups the user's joined records into the eight fixed buckets in order,
empty or null ranks landing in Unknown — provided every rank's bucket key
is one of the eight names.  `set_rank` writes the rank verbatim to the
progress record, so a free-text rank outside the eight names is reachable
and makes `get_tierlist` raise (KeyError, modelled `none`):
`claimC9_counterexample`. -/
theorem claimC9 :
    (∀ (uid : Int) (db : DB),
      (∀ p ∈ tierResults uid db,
        rankKey p.1.rank ∈ (["S", "A", "B", "C", "D", "E", "F", "Unknown"] : List String)) →
      get_tierlist uid db = some
        ⟨claimBucket uid db "S", claimBucket uid db "A", claimBucket uid db "B",
         claimBucket uid db "C", claimBucket uid db "D", claimBucket uid db "E",
         claimBucket uid db "F", claimBucket uid db "Unknown"⟩) ∧
    (∀ (uid : Int) (ty : String) (id0 : OId) (rank : String) (db : DB)
        (out : (String × String × Bool) × DB) (u : UCat),
      get_ucatalog uid ty (normalizeId id0) db = some u →
      set_rank uid ty id0 rank db = some out →
      get_ucatalog uid ty (normalizeId id0) out.2 = some { u with rank := some rank }) := by
  constructor
  · intro uid db hall
    unfold get_tierlist
    rw [tierFoldLemma (tierResults uid db) hall emptyBuckets]
    simp [emptyBuckets, claimBucket]
  · intro uid ty id0 rank db out u hget h
    exact C9_setrank_part uid ty id0 rank db out u hget h

/-- Counterexample to C9 as stated: `set_rank` stores the free-text rank
`"G"` verbatim, after which `get_tierlist` hits a key outside the eight
buckets and fails instead of grouping. -/
theorem claimC9_counterexample :
    ∃ out, set_rank 1 "movie" (OId.num 5) "G" db0C9 = some out ∧
      get_tierlist 1 out.2 = none := by
  refine ⟨(set_rank 1 "movie" (OId.num 5) "G" db0C9).get (by decide), ?_, ?_⟩
  · exact (Option.some_get (by decide)).symm
  · decide

/-- Claim C10 (amended): `add_ulist`, `update_ucatalog` and `toggle_giveup`
only write cached-list entries whose `checked` flag equals (status is done
or giveup) — every entry after the call is either an untouched old entry
or satisfies the invariant — and `set_rank` rewrites only an entry's text,
preserving its `checked`/`status` pair (the fresh entry of an implicit add
satisfies the invariant).  `hard_reload`, by contrast, sets `checked` from
the recomputed status while leaving the entry's stored `status` stale, and
breaks the invariant on drifted data: `claimC10_counterexample`. -/
theorem claimC10 :
    (∀ (uid : Int) (ty : String) (id0 : OId) (db : DB) (r : AddRes) (db1 : DB),
      add_ulist uid ty id0 db = some (r, db1) →
      ∀ e ∈ userListOf uid db1, e ∈ userListOf uid db ∨ entryInv e) ∧
    (∀ (uid : Int) (ty : String) (id0 : OId) (sn : String) (ch : Changes)
        (db : DB) (r : UpdRes × DB),
      update_ucatalog uid ty id0 sn ch db = some r →
      ∀ e ∈ userListOf uid r.2, e ∈ userListOf uid db ∨ entryInv e) ∧
    (∀ (uid : Int) (ty : String) (id0 : OId) (db : DB)
        (r : (String × String × Bool) × DB),
      toggle_giveup uid ty id0 db = some r →
      ∀ e ∈ userListOf uid r.2, e ∈ userListOf uid db ∨ entryInv e) ∧
    (∀ (uid : Int) (ty : String) (id0 : OId) (rank : String) (db : DB)
        (r : (String × String × Bool) × DB),
      set_rank uid ty id0 rank db = some r →
      ∀ e ∈ userListOf uid r.2, e ∈ userListOf uid db ∨ entryInv e ∨
        ∃ e', e' ∈ userListOf uid db ∧ e.checked = e'.checked ∧ e.status = e'.status) :=
  ⟨C10_add, C10_update, C10_toggle, C10_setrank⟩

/-- Counterexample to C10 as stated: on the drifted state `dbC10`,
`hard_reload` writes a cached entry with `checked = false` while its
stored status still reads `"done"` — the written entry violates the
checked-iff-done-or-giveup invariant. -/
theorem claimC10_counterexample :
    ∃ db1 l1, hard_reload 1 dbC10 = some (db1, l1) ∧
      ∃ e, e ∈ userListOf 1 db1 ∧ e.checked = false ∧ e.status = "done" ∧ ¬ entryInv e := by
  refine ⟨_, _, rfl, ⟨OId.num 7, "tv", "Drift s1 e5", false, "done"⟩, ?_, rfl, rfl, ?_⟩
  · decide
  · rw [entryInv]
    decide

/-- Witness for C4 at the drift-free state `dbC4`: the no-drift hypotheses
hold, a run queues zero status writes and changes nothing, and the run's
output is a fixed point of a second run. -/
theorem claimC4_witness :
    (dbC4.ulist.find? (fun p => decide (p.1 = 1)) = some (1, ulC4) ∧
      (∀ r ∈ hrResults 1 (resultPairs ulC4) dbC4,
        get_status r.2 r.1 false (get_settings 1 dbC4) = r.1.status) ∧
      (hrOut 1 dbC4 ulC4).2 = ulC4) ∧
    hard_reload_core 1 dbC4 = some ([], dbC4, ulC4) ∧
    hard_reload 1 dbC4 = some (dbC4, ulC4) :=
  ⟨⟨by decide, by decide, by decide⟩,
   claimC4.2 1 dbC4 (1, ulC4) (by decide) (by decide) (by decide),
   claimC4.1 1 dbC4 (dbC4, ulC4) (by decide)⟩
